import Mathlib

/-! # netsync example driver (`deps/CoinQ/examples/netsync/src/main.cpp`)

A shallow embedding of the netsync example program: its event handlers, its
argument handling and the sequence of actions `main` performs, followed by
the properties of the program that the specification states.

Conventions of the embedding

* `unsigned int` values are natural numbers below `2^32`; arithmetic on them
  is reduced modulo `2^32` explicitly.
* Everything written to a stream by one `<<` chain is a list of tokens
  (`Tok`): string pieces, numbers and `endl`.
* Calls into the libraries (NetworkSync, BloomFilter, the C library) are
  recorded as `Call` values in a trace; what they return or throw is supplied
  by a `World`.
-/

namespace Netsync

/-! ## Output tokens and byte strings -/

/-- Byte strings (`uchar_vector`, `bytes_t`). -/
abbrev Bytes := List Nat

/-- One item written to an output stream with `<<`. -/
inductive Tok where
  | str (s : String)
  | num (n : Int)
  | hexnum (n : Nat)
  | endl
  deriving DecidableEq, Repr

/-- Number of values of an `unsigned int`. -/
def UINT_RANGE : Nat := 2 ^ 32

/-- Reduction of an integer to `unsigned int`. -/
def toUInt (z : Int) : Nat := (z % (UINT_RANGE : Int)).toNat

/-- Reduction of an integer to a signed 64 bit `time_t`. -/
def toTimeT (z : Int) : Int := (z + 2 ^ 63) % 2 ^ 64 - 2 ^ 63

/-! ## Library calls made by the program -/

/-- The calls the program makes into the libraries it links against. -/
inductive Call where
  | INIT_LOGGER (file : String)
  | getCoinParams (network : String)
  | NetworkSync
  | loadHeaders (file : String) (bCheckProofOfWork : Bool)
  | subscribeStarted
  | subscribeStopped
  | subscribeOpen
  | subscribeClose
  | subscribeTimeout
  | subscribeConnectionError
  | subscribeProtocolError
  | subscribeBlockTreeError
  | subscribeFetchingHeaders
  | subscribeHeadersSynched
  | subscribeFetchingBlocks
  | subscribeBlocksSynched
  | subscribeStatus
  | subscribeNewTx
  | subscribeMerkleTx
  | subscribeBlock
  | subscribeMerkleBlock
  | subscribeAddBestChain
  | subscribeRemoveBestChain
  | subscribeBlockTreeChanged
  | BloomFilter (nElements : Nat) (falsePositiveRate : Nat × Nat) (nTweak nFlags : Nat)
  | random_bytes (n : Nat)
  | insert (element : Bytes)
  | setBloomFilter
  | signal (sig : Nat)
  | start (host port : String)
  | usleep (usec : Nat)
  | stop
  | time
  | syncBlocks (hashes : List Bytes) (startTime : Int)
  deriving DecidableEq, Repr

/-- Observable events of a run: stream output, library calls, and the output
written from inside the signal handler. -/
inductive Ev where
  | cout (toks : List Tok)
  | cerr (toks : List Tok)
  | LOGGER (level : String) (toks : List Tok)
  | call (c : Call)
  | inHandler (sig : Nat) (toks : List Tok)
  deriving DecidableEq, Repr

/-! ## The event handlers registered by `main` -/

/-- Handler passed to `subscribeMerkleTx` (lines 132-135): the line printed for
a matched transaction with hash `txHashHex`. -/
def onMerkleTx (txHashHex : String) (txIndex txTotal : Nat) : List Tok :=
  [.str "  tx (", .num txIndex, .str "/", .num (toUInt ((txTotal : Int) - 1)),
   .str "): ", .str txHashHex, .endl]

/-- Handler passed to `subscribeHeadersSynched` (lines 110-114); `now` is the
value `time(NULL)` returns. -/
def onHeadersSynched (now : Int) : List Ev :=
  let hashes : List Bytes := []
  [.cout [.str "NetworkSync headers synched.", .endl],
   .call .time,
   .call (.syncBlocks hashes (toTimeT (now - 10 * 60 * 60)))]

/-- A received merkle block, as far as the handler reads it. -/
structure ChainMerkleBlock where
  headerHashHex : String
  height : Int
  nTxs : Nat
  hashes : List Bytes
  flags : Bytes
  merkleRoot : Bytes
  deriving DecidableEq, Repr

/-- The `PartialMerkleTree` class as the handler uses it: the constructor, which
either yields a tree or throws a `std::exception` with a message, and
`getTxHashesLittleEndianVector`. -/
structure MerkleLib (Tree : Type) where
  construct : Nat → List Bytes → Bytes → Bytes → Except String Tree
  getTxHashesLittleEndianVector : Tree → List Bytes
  getHex : Bytes → String

/-- The range-for loop of line 152, with `i` the running `unsigned int`. -/
def printTxHashes (getHex : Bytes → String) : List Bytes → Nat → List Tok
  | [], _ => []
  | txhash :: rest, i =>
    [.str "  tx ", .num i, .str ": ", .str (getHex txhash), .endl]
      ++ printTxHashes getHex rest ((i + 1) % UINT_RANGE)

/-- What a handler invocation leaves behind. -/
structure HandlerResult where
  output : List Tok
  blockTxIndex : Nat
  escaped : Option String
  deriving DecidableEq, Repr

/-- The body of a `try` block: the output made so far and, if an exception
was thrown, its message. -/
abbrev TryBody := List Tok × Option String

/-- The try block of lines 146-153. -/
def merkleTryBlock {Tree : Type} (lib : MerkleLib Tree) (merkleblock : ChainMerkleBlock) :
    TryBody :=
  match lib.construct merkleblock.nTxs merkleblock.hashes merkleblock.flags
      merkleblock.merkleRoot with
  | .error what => ([], some what)
  | .ok tree =>
    let txhashes := lib.getTxHashesLittleEndianVector tree
    ([.str "should contain txs:", .endl] ++ printTxHashes lib.getHex txhashes 0, none)

/-- Lines 142-144: the lines printed before the try block. -/
def merkleBlockHead (merkleblock : ChainMerkleBlock) : List Tok :=
  [.endl, .str "NEW MERKLE BLOCK", .endl,
   .str "  hash: ", .str merkleblock.headerHashHex, .endl,
   .str "  height: ", .num merkleblock.height, .endl]

/-- Handler passed to `subscribeMerkleBlock` (lines 141-161). The captured
`blockTxIndex` is passed in and returned. -/
def onMerkleBlock {Tree : Type} (lib : MerkleLib Tree) (merkleblock : ChainMerkleBlock)
    (_blockTxIndex : Nat) : HandlerResult :=
  let head : List Tok := merkleBlockHead merkleblock
  let body : List Tok :=
    match merkleTryBlock lib merkleblock with
    | (printed, none) => printed
    | (printed, some what) =>
      printed ++ [.str "Error constructing partial merkle tree: ", .str what, .endl]
  { output := head ++ body ++ [.str "--------------------", .endl]
    blockTxIndex := 0
    escaped := none }

/-- The numbered lines the handler prints for a list of hashes, written
directly: line `i` carries the number `i` and the hash at position `i`. -/
def numberedLines (getHex : Bytes → String) (txhashes : List Bytes) : List Tok :=
  (txhashes.enum.map fun p =>
    [Tok.str "  tx ", Tok.num (p.1 : Int), Tok.str ": ", Tok.str (getHex p.2), Tok.endl]).flatten

/-! ## Command line handling -/

/-- The network parameters `main` reads from `CoinParams`. -/
structure CoinParams where
  network_name : String
  default_port : String
  magic_bytes : Nat
  protocol_version : Nat
  deriving DecidableEq, Repr

/-- C `isspace` in the "C" locale: space, and the controls 9 to 13. -/
def isspace (c : Char) : Bool := c.toNat = 32 || (9 ≤ c.toNat && c.toNat ≤ 13)

/-- Value of a character as a digit: 0-9, then letters (either case) from 10. -/
def digitValue (c : Char) : Option Nat :=
  if 48 ≤ c.toNat ∧ c.toNat ≤ 57 then some (c.toNat - 48)
  else if 97 ≤ c.toNat ∧ c.toNat ≤ 122 then some (c.toNat - 97 + 10)
  else if 65 ≤ c.toNat ∧ c.toNat ≤ 90 then some (c.toNat - 65 + 10)
  else none

/-- Whether `c` is a digit of the given base. -/
def isDigitOf (base : Nat) (c : Char) : Bool :=
  match digitValue c with
  | some d => decide (d < base)
  | none => false

/-- The longest run of digits of the given base at the front of the input. -/
def leadingDigits (base : Nat) : List Char → List Nat
  | [] => []
  | c :: rest =>
    match digitValue c with
    | some d => if d < base then d :: leadingDigits base rest else []
    | none => []

/-- The optional sign in front of a number: whether it is a minus, and the rest. -/
def takeSign (s : List Char) : Bool × List Char :=
  match s with
  | c :: rest =>
    if c.toNat = 45 then (true, rest) else if c.toNat = 43 then (false, rest) else (false, s)
  | [] => (false, s)

/-- Base 0 of `strtoul`: `0x` or `0X` before a hexadecimal digit selects base 16
and is skipped, another leading `0` selects base 8, anything else base 10. -/
def detectBase (s : List Char) : Nat × List Char :=
  match s with
  | z :: x :: h :: rest =>
    if z.toNat = 48 then
      if (x.toNat = 120 ∨ x.toNat = 88) ∧ isDigitOf 16 h = true then (16, h :: rest)
      else (8, s)
    else (10, s)
  | z :: _ => if z.toNat = 48 then (8, s) else (10, s)
  | [] => (10, s)

/-- C `strtoul(s, NULL, 0)` for an `unsigned long` with maximum `ULONG_MAX`:
white space is skipped, a sign is accepted, the base is taken from the prefix,
the longest run of digits is converted; without any digit the result is 0, on
overflow it is `ULONG_MAX`, and a minus sign negates within the unsigned type. -/
def strtoul (ULONG_MAX : Nat) (s : String) : Nat :=
  let signed := takeSign (s.toList.dropWhile isspace)
  let based := detectBase signed.2
  let ds := leadingDigits based.1 based.2
  if ds = [] then 0
  else
    let v := ds.foldl (fun acc d => acc * based.1 + d) 0
    if ULONG_MAX < v then ULONG_MAX
    else if signed.1 then (ULONG_MAX + 1 - v) % (ULONG_MAX + 1)
    else v

/-- Line 55: `string host = argv[2]`. -/
def hostOf (argv : List String) : String := argv.getD 2 ""

/-- Line 56: `string port = (argc > 3) ? argv[3] : coinParams.default_port()`. -/
def portOf (coinParams : CoinParams) (argc : Int) (argv : List String) : String :=
  if argc > 3 then argv.getD 3 "" else coinParams.default_port

/-- Line 57: `unsigned int filterElements = (argc > 4) ? strtoul(argv[4], NULL, 0) : 10`. -/
def filterElementsOf (ULONG_MAX : Nat) (argc : Int) (argv : List String) : Nat :=
  (if argc > 4 then strtoul ULONG_MAX (argv.getD 4 "") else 10) % UINT_RANGE

/-! ## The process: state, signals and exceptions -/

/-- Everything outside the program that a run depends on. Calls and flag reads
are counted by a clock; the world says which library call throws, what
`random_bytes` returns, and which signals arrive before each clock tick. -/
structure World where
  networkNames : List String
  coinParams : String → CoinParams
  ULONG_MAX : Nat
  throws : Nat → Option String
  random : Nat → Nat → Bytes
  signals : Nat → List Nat

/-- State of the running process: the global `g_bShutdown`, the signals for
which `finish` is installed, the clock and the trace of events so far. -/
structure Proc where
  g_bShutdown : Bool
  handlers : List Nat
  clock : Nat
  trace : List Ev
  deriving DecidableEq, Repr

/-- Line 26: `bool g_bShutdown = false;` at program start. -/
def Proc.initial : Proc :=
  { g_bShutdown := false, handlers := [], clock := 0, trace := [] }

/-- Lines 28-32: the signal handler. -/
def finish (sig : Nat) (s : Proc) : Proc :=
  { s with
    trace := s.trace ++ [Ev.inHandler sig [.str "Stopping...", .endl]]
    g_bShutdown := true }

/-- One clock tick: the signals that arrive now and have `finish` installed run
the handler. Signals without a handler are not part of the model. -/
def deliver (w : World) (s : Proc) : Proc :=
  let pending := (w.signals s.clock).filter fun g => decide (g ∈ s.handlers)
  { (pending.foldl (fun st g => finish g st) s) with clock := s.clock + 1 }

/-- How a piece of code ends: it falls through, it throws a `std::exception`,
or it is still running when the fuel is used up. -/
inductive Flow where
  | normal
  | threw (what : String)
  | running
  deriving DecidableEq, Repr

/-- Record an event of the main thread, after one clock tick. -/
def emit (w : World) (e : Ev) (s : Proc) : Proc :=
  let s1 := deliver w s
  { s1 with trace := s1.trace ++ [e] }

/-- A library call that may throw. -/
def callLib (w : World) (c : Call) (s : Proc) : Proc × Flow :=
  match w.throws s.clock with
  | some what => (emit w (.call c) s, .threw what)
  | none => (emit w (.call c) s, .normal)

/-- Straight-line statements of `main`. -/
inductive Stmt where
  | cout (toks : List Tok)
  | cerr (toks : List Tok)
  | LOGGER (level : String) (toks : List Tok)
  | call (c : Call)
  | signal (sig : Nat)
  deriving DecidableEq, Repr

/-- The event a statement records in the trace. -/
def Stmt.ev : Stmt → Ev
  | .cout toks => .cout toks
  | .cerr toks => .cerr toks
  | .LOGGER level toks => .LOGGER level toks
  | .call c => .call c
  | .signal sig => .call (.signal sig)

/-- Run one statement: output and C library calls do not throw, `signal`
installs `finish` for the signal. -/
def runStmt (w : World) : Stmt → Proc → Proc × Flow
  | .cout toks, s => (emit w (.cout toks) s, .normal)
  | .cerr toks, s => (emit w (.cerr toks) s, .normal)
  | .LOGGER level toks, s => (emit w (.LOGGER level toks) s, .normal)
  | .call c, s => callLib w c s
  | .signal sig, s =>
    let s1 := emit w (.call (.signal sig)) s
    ({ s1 with handlers := sig :: s1.handlers }, .normal)

/-- Run statements in order until one does not fall through. -/
def exec (w : World) : List Stmt → Proc → Proc × Flow
  | [], s => (s, .normal)
  | st :: rest, s =>
    match runStmt w st s with
    | (s1, .normal) => exec w rest s1
    | other => other

/-- Sequencing: continue only after a normal end. -/
def andThen (r : Proc × Flow) (k : Proc → Proc × Flow) : Proc × Flow :=
  match r with
  | (s, .normal) => k s
  | other => other

/-- Signal numbers. -/
def SIGINT : Nat := 2

/-- Signal number of the termination request. -/
def SIGTERM : Nat := 15

/-! ## `main` -/

/-- Lines 46-47: the usage text. -/
def usageText (w : World) (argv : List String) : List Tok :=
  [.str "# Usage: ", .str (argv.getD 0 ""),
   .str " <network> <host> [port] [bloom filter elements = 10]", .endl,
   .str "# Supported networks: ", .str (String.intercalate ", " w.networkNames), .endl]

/-- Lines 51-181: from the logger set-up to the printed filter settings. -/
def setupStmts (w : World) (argc : Int) (argv : List String) : List Stmt :=
  let coinParams := w.coinParams (argv.getD 1 "")
  let host := hostOf argv
  let port := portOf coinParams argc argv
  let filterElements := filterElementsOf w.ULONG_MAX argc argv
  [ .cout ([.endl, .str "Initializing logger to file netsync.log...", .endl]),
    .call (.INIT_LOGGER "netsync.log"),
    .call (.getCoinParams (argv.getD 1 "")),
    .cout ([.endl, .str "Connecting to ", .str coinParams.network_name, .str " peer", .endl,
      .str "-------------------------------------------", .endl,
      .str "  host:             ", .str host, .endl,
      .str "  port:             ", .str port, .endl,
      .str "  magic bytes:      ", .hexnum coinParams.magic_bytes, .endl,
      .str "  protocol version: ", .num coinParams.protocol_version, .endl,
      .endl]),
    .call .NetworkSync,
    .call (.loadHeaders "blocktree.dat" false),
    .call .subscribeStarted,
    .call .subscribeStopped,
    .call .subscribeOpen,
    .call .subscribeClose,
    .call .subscribeTimeout,
    .call .subscribeConnectionError,
    .call .subscribeProtocolError,
    .call .subscribeBlockTreeError,
    .call .subscribeFetchingHeaders,
    .call .subscribeHeadersSynched,
    .call .subscribeFetchingBlocks,
    .call .subscribeBlocksSynched,
    .call .subscribeStatus,
    .call .subscribeNewTx,
    .call .subscribeMerkleTx,
    .call .subscribeBlock,
    .call .subscribeMerkleBlock,
    .call .subscribeAddBestChain,
    .call .subscribeRemoveBestChain,
    .call .subscribeBlockTreeChanged,
    .cout ([.endl, .str "Bloom filter settings", .endl,
      .str "---------------------", .endl,
      .str "  elements:            ", .num filterElements, .endl,
      .str "  false positive rate: 0.001", .endl,
      .str "  nTweak:              0", .endl,
      .str "  nFlags:              0", .endl]),
    .call (.BloomFilter filterElements (1, 1000) 0 0) ]

/-- Line 184: `for (unsigned int i = 0; i < filterElements; i++)
{ filter.insert(random_bytes(32)); }`, started at `i`. -/
def insertLoop (w : World) (filterElements : Nat) : Nat → Nat → Proc → Proc × Flow
  | 0, _, s => (s, .running)
  | fuel + 1, i, s =>
    if i < filterElements then
      andThen (callLib w (.random_bytes 32) s) fun s1 =>
      andThen (callLib w (.insert (w.random s.clock 32)) s1) fun s2 =>
      insertLoop w filterElements fuel ((i + 1) % UINT_RANGE) s2
    else (s, .normal)

/-- Lines 185-194: installing the filter and the signal handlers, starting. -/
def startStmts (argc : Int) (argv : List String) (coinParams : CoinParams) : List Stmt :=
  [ .call .setBloomFilter,
    .cout ([.endl, .str "Registering SIGINT and SIGTERM signal handlers..", .endl]),
    .signal SIGINT,
    .signal SIGTERM,
    .LOGGER "info" ([.endl, .endl, .endl, .endl, .endl, .endl]),
    .cout ([.endl, .str "Starting sync...", .endl]),
    .LOGGER "info" ([.str "Starting...", .endl]),
    .call (.start (hostOf argv) (portOf coinParams argc argv)) ]

/-- Line 195: `while (!g_bShutdown) { usleep(200); }`. Reading the flag is a
clock tick of its own. -/
def waitLoop (w : World) : Nat → Proc → Proc × Flow
  | 0, s => (s, .running)
  | fuel + 1, s =>
    let s1 := deliver w s
    if !s1.g_bShutdown then waitLoop w fuel (emit w (.call (.usleep 200)) s1)
    else (s1, .normal)

/-- Lines 197-202: stopping. -/
def stopStmts : List Stmt :=
  [ .cout ([.str "Stopping...", .endl]),
    .LOGGER "info" ([.str "Stopping...", .endl]),
    .call .stop,
    .cout ([.str "Stopped.", .endl]),
    .LOGGER "info" ([.str "Stopped.", .endl]) ]

/-- Lines 51-202: the try block of `main` after the usage check. -/
def mainBody (w : World) (fuel : Nat) (argc : Int) (argv : List String) (s : Proc) :
    Proc × Flow :=
  andThen (exec w (setupStmts w argc argv) s) fun s1 =>
  andThen (insertLoop w (filterElementsOf w.ULONG_MAX argc argv) fuel 0 s1) fun s2 =>
  andThen (exec w (startStmts argc argv (w.coinParams (argv.getD 1 ""))) s2) fun s3 =>
  andThen (waitLoop w fuel s3) fun s4 =>
  exec w stopStmts s4

/-- Lines 204-209: the catch block of `main`. -/
def catchStmts (what : String) : List Stmt :=
  [ .cerr ([.str "Unexpected termination. Error: ", .str what, .endl]),
    .LOGGER "error" ([.str "Unexpected termination. Error: ", .str what, .endl]) ]

/-- Lines 38-212: `main`. The result is the final process state and the exit
code, or no exit code when the fuel ran out while a loop was still running.
The trace holds what the main thread and the signal handler do; the
construction of `NetworkSelector` (line 42) and the listing of the network
names do not throw, and the handlers that NetworkSync runs are the separate
functions above. -/
def main (w : World) (fuel : Nat) (argc : Int) (argv : List String) : Proc × Option Int :=
  if argc < 3 then
    (emit w (.cerr (usageText w argv)) Proc.initial, some (-1))
  else
    match mainBody w fuel argc argv Proc.initial with
    | (s, .normal) => (s, some 0)
    | (s, .threw what) => ((exec w (catchStmts what) s).1, some (-2))
    | (s, .running) => (s, none)

/-! ## MembershipFilter (the `BloomFilter` class) -/

/-- Modelled from the spec: the `BloomFilter` class (CoinCore/BloomFilter.h) is
not among the sources. A fixed-size bit array, a hash-function count, a
tweak and a flags value. -/
structure MembershipFilter where
  bits : List Bool
  k : Nat
  tweak : Nat
  flags : Nat
  deriving DecidableEq, Repr

/-- Modelled from the spec: the sizing of a new filter and its seeded hash,
which are missing with the class. `bitCount n p` stands for
`ceil(-1 * n * ln(p) / ln(2)^2)` and `hashCount n p` for `round((m/n) * ln(2))`,
both after clamping; the rate `p` is a fraction. `seededHash tweak i element`
is the hash of `element` combined with `i` and `tweak`. -/
structure FilterParams where
  bitCount : Nat → Nat × Nat → Nat
  hashCount : Nat → Nat × Nat → Nat
  seededHash : Nat → Nat → Bytes → Nat

/-- Modelled from the spec: the `i`-th derived bit position of an element in the
missing `BloomFilter` class, the seeded hash reduced modulo the size `m`. -/
def MembershipFilter.position (P : FilterParams) (f : MembershipFilter) (i : Nat)
    (element : Bytes) : Nat :=
  P.seededHash f.tweak i element % f.bits.length

/-- Modelled from the spec: `insert(element)` of the missing `BloomFilter` class,
which sets the bit at each of the `k` derived positions. -/
def MembershipFilter.insert (P : FilterParams) (f : MembershipFilter) (element : Bytes) :
    MembershipFilter :=
  (List.range f.k).foldl
    (fun g i => { g with bits := g.bits.set (f.position P i element) true }) f

/-- Modelled from the spec: height `ceil(log2(totalLeafCount))` of the conceptual
tree of the missing `PartialMerkleTree` class, found by counting up from `h`. -/
def treeHeightFrom (totalLeafCount : Nat) : Nat → Nat → Nat
  | 0, h => h
  | fuel + 1, h => if totalLeafCount ≤ 2 ^ h then h else treeHeightFrom totalLeafCount fuel (h + 1)

/-- Modelled from the spec: `ceil(log2(totalLeafCount))` for the missing
`PartialMerkleTree` class. -/
def treeHeight (totalLeafCount : Nat) : Nat := treeHeightFrom totalLeafCount totalLeafCount 0

/-- Modelled from the spec: the number of nodes at a height of the conceptual
tree of the missing `PartialMerkleTree` class (leaves are at height 0). -/
def treeWidth (totalLeafCount height : Nat) : Nat :=
  (totalLeafCount + 2 ^ height - 1) / 2 ^ height

/-- Modelled from the spec: what is left of the input of the missing
`PartialMerkleTree` decoder during the traversal, and the matches so far. -/
structure Cursor where
  hashes : List Bytes
  flagBits : List Bool
  matched : List (Nat × Bytes)
  deriving DecidableEq, Repr

/-- Modelled from the spec: the depth-first traversal of the missing
`PartialMerkleTree` class at the node `pos` of the given height. The next flag
bit decides: 0 consumes the next hash as the value of the node, 1 descends and
combines the children (the left one twice when there is no right one); a leaf
consumes a hash, and flag 1 marks it matched. `combine` is the node hash. -/
def traverse (combine : Bytes → Bytes → Bytes) (totalLeafCount : Nat) :
    Nat → Nat → Cursor → Except String (Bytes × Cursor)
  | height, pos, c =>
    match c.flagBits with
    | [] => .error "not enough flag bits"
    | flag :: flagBits =>
      match height with
      | 0 =>
        match c.hashes with
        | [] => .error "not enough hashes"
        | h :: hashes =>
          .ok (h, { hashes := hashes, flagBits := flagBits,
                    matched := if flag then c.matched ++ [(pos, h)] else c.matched })
      | below + 1 =>
        if flag then
          match traverse combine totalLeafCount below (2 * pos)
              { c with flagBits := flagBits } with
          | .error e => .error e
          | .ok (left, c1) =>
            if 2 * pos + 1 < treeWidth totalLeafCount below then
              match traverse combine totalLeafCount below (2 * pos + 1) c1 with
              | .error e => .error e
              | .ok (right, c2) => .ok (combine left right, c2)
            else .ok (combine left left, c1)
        else
          match c.hashes with
          | [] => .error "not enough hashes"
          | h :: hashes => .ok (h, { c with hashes := hashes, flagBits := flagBits })

/-- Modelled from the spec: the result of a successful `verify` of the missing
`PartialMerkleTree` class, the matches in leaf order and the computed root. -/
structure Verified where
  matched : List (Nat × Bytes)
  root : Bytes
  deriving DecidableEq, Repr

/-- Modelled from the spec: `verify(totalLeafCount, hashes, flagBits,
expectedRoot)` of the missing `PartialMerkleTree` class. The traversal must use
up all hashes and flag bits and arrive at `expectedRoot`; anything else is a
structural-verification error and nothing is accepted. -/
def verify (combine : Bytes → Bytes → Bytes) (totalLeafCount : Nat) (hashes : List Bytes)
    (flagBits : List Bool) (expectedRoot : Bytes) : Except String Verified :=
  match traverse combine totalLeafCount (treeHeight totalLeafCount) 0
      { hashes := hashes, flagBits := flagBits, matched := [] } with
  | .error e => .error e
  | .ok (root, c) =>
    if c.hashes ≠ [] then .error "excess hashes"
    else if c.flagBits ≠ [] then .error "excess flag bits"
    else if root ≠ expectedRoot then .error "merkle root mismatch"
    else .ok { matched := c.matched, root := root }

/-- Modelled from the spec: one level up in the full merkle tree of the missing
`MerkleTree` code, where neighbours are combined and an odd last node is
combined with itself. -/
def merkleLevel (combine : Bytes → Bytes → Bytes) : List Bytes → List Bytes
  | [] => []
  | [a] => [combine a a]
  | a :: b :: rest => combine a b :: merkleLevel combine rest

/-- Modelled from the spec: the merkle root of a list of leaves (missing
`MerkleTree` code), by at most `fuel` levels. -/
def merkleRootFrom (combine : Bytes → Bytes → Bytes) : Nat → List Bytes → Bytes
  | 0, level => level.headD []
  | fuel + 1, level =>
    if level.length ≤ 1 then level.headD []
    else merkleRootFrom combine fuel (merkleLevel combine level)

/-- Modelled from the spec: the true merkle root of the leaves (missing
`MerkleTree` code). -/
def merkleRoot (combine : Bytes → Bytes → Bytes) (leaves : List Bytes) : Bytes :=
  merkleRootFrom combine leaves.length leaves

/-! ## Traces: main thread events, handler events, shapes -/

/-- Whether an event was produced inside the signal handler. -/
def Ev.isHandler : Ev → Bool
  | .inHandler _ _ => true
  | _ => false

/-- The events of the main thread in a trace, in order. -/
def mainEvents (t : List Ev) : List Ev := t.filter fun e => !e.isHandler

/-- The event one run of `finish` leaves in the trace. -/
def handlerEv (sig : Nat) : Ev := .inHandler sig [.str "Stopping...", .endl]

/-- The events of complete loop iterations inserting the given elements. -/
def loopEvents (elems : List Bytes) : List Ev :=
  (elems.map fun e => [Ev.call (.random_bytes 32), Ev.call (.insert e)]).flatten

/-- Whether an event is one the insertion loop makes. -/
def Ev.isLoop : Ev → Bool
  | .call (.random_bytes _) => true
  | .call (.insert _) => true
  | _ => false

/-- The flag is set exactly when the handler has run. -/
def FlagInv (s : Proc) : Prop :=
  s.g_bShutdown = true ↔ ∃ e ∈ s.trace, e.isHandler = true

/-- The events of lines 51-183 in order. -/
def setupEvents (w : World) (argc : Int) (argv : List String) : List Ev :=
  (setupStmts w argc argv).map Stmt.ev

/-- The events of lines 185-194 in order. -/
def startEvents (w : World) (argc : Int) (argv : List String) : List Ev :=
  (startStmts argc argv (w.coinParams (argv.getD 1 ""))).map Stmt.ev

/-- The events of lines 197-202 in order. -/
def stopEvents : List Ev := stopStmts.map Stmt.ev

/-- The events of the catch block in order. -/
def catchEvents (what : String) : List Ev := (catchStmts what).map Stmt.ev

/-- The elements a complete run of the insertion loop inserts: as many as the
filter was sized for, each the result of a `random_bytes(32)` call. -/
def GoodElems (w : World) (argc : Int) (argv : List String) (elems : List Bytes) : Prop :=
  elems.length = filterElementsOf w.ULONG_MAX argc argv ∧ ∀ e ∈ elems, ∃ c, e = w.random c 32

/-- Whether an event uses the bloom filter object: its construction, an insert,
its installation, or the start of the sync. -/
def Ev.isFilterUse : Ev → Bool
  | .call (.BloomFilter _ _ _ _) => true
  | .call (.insert _) => true
  | .call .setBloomFilter => true
  | .call (.start _ _) => true
  | _ => false

/-- Whether an event belongs to the construction of the bloom filter: the
printed settings, the constructor call, or an insert. -/
def Ev.isFilterBuild : Ev → Bool
  | .cout (.endl :: .str "Bloom filter settings" :: _) => true
  | .call (.BloomFilter _ _ _ _) => true
  | .call (.insert _) => true
  | _ => false

/-- The world used in the examples: nothing throws, `random_bytes` returns its
call time repeated, and SIGINT arrives at clock 45. -/
def demoWorld : World where
  networkNames := ["bitcoin", "testnet3"]
  coinParams := fun _ =>
    { network_name := "bitcoin", default_port := "8333", magic_bytes := 7,
      protocol_version := 70001 }
  ULONG_MAX := 2 ^ 64 - 1
  throws := fun _ => none
  random := fun k n => List.replicate n k
  signals := fun k => if k = 45 then [2] else []

/-! ## Helpers for the filter model and the examples -/

def demoLib : MerkleLib (List Bytes) where
  construct := fun n hashes _ _ => if n = 0 then .error "empty" else .ok hashes
  getTxHashesLittleEndianVector := fun t => t
  getHex := fun _ => "00"

def demoBlock (n : Nat) : ChainMerkleBlock :=
  { headerHashHex := "ab", height := 7, nTxs := n, hashes := [[1], [2]], flags := [3], merkleRoot := [9] }

/-- Arguments used in the examples: no filter elements. -/
def demoArgs : List String := ["netsync", "bitcoin", "localhost", "18333", "0"]

/-- Whether an event is output to `cerr`. -/
def Ev.isCerr : Ev → Bool
  | .cerr _ => true
  | _ => false

/-! # Properties: auxiliary facts -/

set_option maxRecDepth 100000

theorem toUInt_of_lt (n : Nat) (h : n < 2 ^ 32) : toUInt (n : Int) = n := by
  unfold toUInt UINT_RANGE
  have : ((n : Int) % ((2 ^ 32 : Nat) : Int)) = n := by
    rw [← Int.natCast_mod, Nat.mod_eq_of_lt h]
  rw [this]; simp

theorem printTxHashes_eq (getHex : Bytes → String) (l : List Bytes) :
    ∀ i : Nat, i + l.length ≤ 2 ^ 32 →
      printTxHashes getHex l i =
        ((l.enumFrom i).map fun p =>
          [Tok.str "  tx ", Tok.num (p.1 : Int), Tok.str ": ", Tok.str (getHex p.2),
           Tok.endl]).flatten := by
  induction l with
  | nil => intro i _; simp [printTxHashes]
  | cons a t ih =>
    intro i hi
    simp only [List.length_cons] at hi
    by_cases ht : t = []
    · subst ht; simp [printTxHashes, List.enumFrom]
    · have hpos : 0 < t.length := List.length_pos.mpr ht
      have hlt : i + 1 < 2 ^ 32 := by omega
      have hmod : (i + 1) % UINT_RANGE = i + 1 := Nat.mod_eq_of_lt (by unfold UINT_RANGE; exact hlt)
      simp only [printTxHashes, hmod, List.enumFrom, List.map_cons, List.flatten_cons]
      rw [ih (i + 1) (by omega)]

theorem mainEvents_append (a b : List Ev) : mainEvents (a ++ b) = mainEvents a ++ mainEvents b := by
  simp [mainEvents]

theorem foldl_finish (pending : List Nat) : ∀ s : Proc,
    (pending.foldl (fun st g => finish g st) s).trace = s.trace ++ pending.map handlerEv
    ∧ (pending.foldl (fun st g => finish g st) s).g_bShutdown
        = (s.g_bShutdown || !pending.isEmpty)
    ∧ (pending.foldl (fun st g => finish g st) s).handlers = s.handlers
    ∧ (pending.foldl (fun st g => finish g st) s).clock = s.clock := by
  induction pending with
  | nil => intro s; simp
  | cons g rest ih =>
    intro s
    obtain ⟨h1, h2, h3, h4⟩ := ih (finish g s)
    simp only [List.foldl_cons, h1, h2, h3, h4]
    simp [finish, handlerEv]

theorem mainEvents_handlers (l : List Nat) : mainEvents (l.map handlerEv) = [] := by
  simp [mainEvents, handlerEv, Ev.isHandler]

/-- What a clock tick does. -/
theorem deliver_spec (w : World) (s : Proc) :
    ∃ H : List Nat,
      (deliver w s).trace = s.trace ++ H.map handlerEv
      ∧ (deliver w s).g_bShutdown = (s.g_bShutdown || !H.isEmpty)
      ∧ (deliver w s).handlers = s.handlers
      ∧ (deliver w s).clock = s.clock + 1 := by
  obtain ⟨h1, h2, h3, _⟩ :=
    foldl_finish ((w.signals s.clock).filter fun g => decide (g ∈ s.handlers)) s
  exact ⟨_, by simpa [deliver] using h1, by simpa [deliver] using h2,
    by simpa [deliver] using h3, by simp [deliver]⟩

theorem FlagInv_step (s t : Proc) (H : List Nat) (X : List Ev)
    (hX : ∀ e ∈ X, e.isHandler = false)
    (ht : t.trace = s.trace ++ H.map handlerEv ++ X)
    (hf : t.g_bShutdown = (s.g_bShutdown || !H.isEmpty)) (hs : FlagInv s) : FlagInv t := by
  unfold FlagInv at *
  rw [hf, ht]
  cases H with
  | nil =>
    simp only [List.map_nil, List.append_nil, List.isEmpty_nil, Bool.not_true, Bool.or_false,
      List.mem_append]
    rw [hs]
    constructor
    · rintro ⟨e, he, h⟩; exact ⟨e, Or.inl he, h⟩
    · rintro ⟨e, he | he, h⟩
      · exact ⟨e, he, h⟩
      · rw [hX e he] at h; cases h
  | cons g rest =>
    simp only [List.isEmpty_cons, Bool.not_false, Bool.or_true, true_iff]
    exact ⟨handlerEv g, by simp, rfl⟩

theorem FlagInv_deliver (w : World) (s : Proc) (hs : FlagInv s) : FlagInv (deliver w s) := by
  obtain ⟨H, h1, h2, _, _⟩ := deliver_spec w s
  exact FlagInv_step s _ H [] (by simp) (by simpa using h1) h2 hs

theorem emit_spec (w : World) (e : Ev) (s : Proc) :
    ∃ H : List Nat,
      (emit w e s).trace = s.trace ++ H.map handlerEv ++ [e]
      ∧ (emit w e s).g_bShutdown = (s.g_bShutdown || !H.isEmpty)
      ∧ (emit w e s).handlers = s.handlers := by
  obtain ⟨H, h1, h2, h3, _⟩ := deliver_spec w s
  exact ⟨H, by simp [emit, h1], by simp [emit, h2], by simp [emit, h3]⟩

/-- What one statement does to the trace and how it can end. -/
theorem runStmt_spec (w : World) (st : Stmt) (s : Proc) :
    ∃ H : List Nat,
      (runStmt w st s).1.trace = s.trace ++ H.map handlerEv ++ [st.ev]
      ∧ (runStmt w st s).1.g_bShutdown = (s.g_bShutdown || !H.isEmpty)
      ∧ (runStmt w st s).2 ≠ .running
      ∧ (∀ what, (runStmt w st s).2 = .threw what → ∃ c, st = .call c) := by
  cases st with
  | cout toks =>
    obtain ⟨H, h1, h2, _⟩ := emit_spec w (.cout toks) s
    exact ⟨H, by simpa [runStmt, Stmt.ev] using h1, by simpa [runStmt] using h2,
      by simp [runStmt], by simp [runStmt]⟩
  | cerr toks =>
    obtain ⟨H, h1, h2, _⟩ := emit_spec w (.cerr toks) s
    exact ⟨H, by simpa [runStmt, Stmt.ev] using h1, by simpa [runStmt] using h2,
      by simp [runStmt], by simp [runStmt]⟩
  | LOGGER level toks =>
    obtain ⟨H, h1, h2, _⟩ := emit_spec w (.LOGGER level toks) s
    exact ⟨H, by simpa [runStmt, Stmt.ev] using h1, by simpa [runStmt] using h2,
      by simp [runStmt], by simp [runStmt]⟩
  | call c =>
    obtain ⟨H, h1, h2, _⟩ := emit_spec w (.call c) s
    refine ⟨H, ?_, ?_, ?_, fun _ _ => ⟨c, rfl⟩⟩
    · simp only [runStmt, callLib, Stmt.ev]; split <;> simpa using h1
    · simp only [runStmt, callLib]; split <;> simpa using h2
    · simp only [runStmt, callLib]; split <;> simp
  | signal sig =>
    obtain ⟨H, h1, h2, _⟩ := emit_spec w (.call (.signal sig)) s
    exact ⟨H, by simpa [runStmt, Stmt.ev] using h1, by simpa [runStmt] using h2,
      by simp [runStmt], by simp [runStmt]⟩

/-- What a block of statements does: the trace grows by the events of the
first `k` statements with handler events in between; a throw comes from a
library call, which is the last statement run. -/
theorem exec_spec (w : World) (stmts : List Stmt) : ∀ s : Proc,
    ∃ (X : List Ev) (k : Nat),
      (exec w stmts s).1.trace = s.trace ++ X
      ∧ mainEvents X = (stmts.take k).map Stmt.ev
      ∧ k ≤ stmts.length
      ∧ ((exec w stmts s).2 = .normal → k = stmts.length)
      ∧ (exec w stmts s).2 ≠ .running
      ∧ (∀ what, (exec w stmts s).2 = .threw what →
          ∃ j c, k = j + 1 ∧ stmts.get? j = some (.call c))
      ∧ (FlagInv s → FlagInv (exec w stmts s).1) := by
  induction stmts with
  | nil => intro s; exact ⟨[], 0, by simp [exec], by simp [mainEvents], by simp, by simp,
      by simp [exec], by simp [exec], by simp [exec]⟩
  | cons st rest ih =>
    intro s
    obtain ⟨H, h1, h2, h3, h4⟩ := runStmt_spec w st s
    have hev : st.ev.isHandler = false := by cases st <;> rfl
    have hme : mainEvents (H.map handlerEv ++ [st.ev]) = [st.ev] := by
      rw [mainEvents_append, mainEvents_handlers]; simp [mainEvents, hev]
    have hinv : FlagInv s → FlagInv (runStmt w st s).1 := fun hs =>
      FlagInv_step s _ H [st.ev] (by simp [hev]) h1 h2 hs
    generalize hr : runStmt w st s = r at h1 h2 h3 h4 hinv
    obtain ⟨s1, f⟩ := r
    cases f with
    | normal =>
      obtain ⟨X, k, g1, g2, g3, g4, g5, g6, g7⟩ := ih s1
      refine ⟨H.map handlerEv ++ [st.ev] ++ X, k + 1, ?_, ?_, ?_, ?_, ?_, ?_, ?_⟩
      · simp only [exec, hr, g1]; simp only at h1; rw [h1]; simp
      · rw [mainEvents_append, hme, g2]; simp
      · simp; exact g3
      · intro h; simp only [exec, hr] at h; simp [g4 h]
      · simp only [exec, hr]; exact g5
      · intro what h
        simp only [exec, hr] at h
        obtain ⟨j, c, e1, e2⟩ := g6 what h
        exact ⟨j + 1, c, by omega, by simpa using e2⟩
      · intro hs; simp only [exec, hr]; exact g7 (hinv hs)
    | threw what =>
      obtain ⟨c, hc⟩ := h4 what rfl
      refine ⟨H.map handlerEv ++ [st.ev], 1, ?_, ?_, ?_, ?_, ?_, ?_, ?_⟩
      · simp only [exec, hr]; simp only at h1; rw [h1]; simp
      · rw [hme]; simp
      · simp
      · intro h; simp [exec, hr] at h
      · simp [exec, hr]
      · intro _ _; exact ⟨0, c, rfl, by simp [hc]⟩
      · intro hs; simp only [exec, hr]; exact hinv hs
    | running => exact absurd rfl h3

theorem callLib_spec (w : World) (c : Call) (s : Proc) :
    ∃ H : List Nat,
      (callLib w c s).1.trace = s.trace ++ H.map handlerEv ++ [.call c]
      ∧ (callLib w c s).1.g_bShutdown = (s.g_bShutdown || !H.isEmpty)
      ∧ (callLib w c s).2 ≠ .running := by
  obtain ⟨H, h1, h2, h3, _⟩ := runStmt_spec w (.call c) s
  exact ⟨H, h1, h2, h3⟩

theorem FlagInv_callLib (w : World) (c : Call) (s : Proc) (hs : FlagInv s) :
    FlagInv (callLib w c s).1 := by
  obtain ⟨H, h1, h2, _⟩ := callLib_spec w c s
  exact FlagInv_step s _ H [.call c] (by simp [Ev.isHandler]) h1 h2 hs

theorem mainEvents_call (H : List Nat) (c : Call) :
    mainEvents (H.map handlerEv ++ [Ev.call c]) = [Ev.call c] := by
  rw [mainEvents_append, mainEvents_handlers]; simp [mainEvents, Ev.isHandler]

/-- What the insertion loop does: it only makes `random_bytes` and `insert`
calls; when it ends normally it has inserted one random string for each
index from `i` up to `filterElements`; with enough fuel it ends. -/
theorem insertLoop_spec (w : World) (fe : Nat) (hfe : fe < 2 ^ 32) : ∀ (fuel i : Nat) (s : Proc),
    ∃ X : List Ev,
      (insertLoop w fe fuel i s).1.trace = s.trace ++ X
      ∧ (∀ e ∈ mainEvents X, e.isLoop = true)
      ∧ ((insertLoop w fe fuel i s).2 = .normal →
          ∃ elems : List Bytes, mainEvents X = loopEvents elems ∧ elems.length = fe - i
            ∧ ∀ e ∈ elems, ∃ c, e = w.random c 32)
      ∧ (fe - i < fuel → (insertLoop w fe fuel i s).2 ≠ .running)
      ∧ (FlagInv s → FlagInv (insertLoop w fe fuel i s).1) := by
  intro fuel
  induction fuel with
  | zero =>
    intro i s
    exact ⟨[], by simp [insertLoop], by simp [mainEvents], by simp [insertLoop],
      by simp, by simp [insertLoop]⟩
  | succ fuel ih =>
    intro i s
    by_cases hi : i < fe
    · obtain ⟨H1, a1, a2, a3⟩ := callLib_spec w (.random_bytes 32) s
      have ainv := FlagInv_callLib w (.random_bytes 32) s
      generalize hr1 : callLib w (.random_bytes 32) s = r1 at a1 a2 a3 ainv
      obtain ⟨s1, f1⟩ := r1
      have hloop1 : ∀ e ∈ mainEvents (H1.map handlerEv ++ [Ev.call (.random_bytes 32)]),
          e.isLoop = true := by
        rw [mainEvents_call]; simp [Ev.isLoop]
      cases f1 with
      | running => exact absurd rfl a3
      | threw what =>
        refine ⟨H1.map handlerEv ++ [Ev.call (.random_bytes 32)], ?_, hloop1, ?_, ?_, ?_⟩
        · simp only [insertLoop, hi, if_true, hr1, andThen]; simpa using a1
        · simp [insertLoop, hi, hr1, andThen]
        · simp [insertLoop, hi, hr1, andThen]
        · intro hs; simp only [insertLoop, hi, if_true, hr1, andThen]; exact ainv hs
      | normal =>
        obtain ⟨H2, b1, b2, b3⟩ := callLib_spec w (.insert (w.random s.clock 32)) s1
        have binv := FlagInv_callLib w (.insert (w.random s.clock 32)) s1
        generalize hr2 : callLib w (.insert (w.random s.clock 32)) s1 = r2 at b1 b2 b3 binv
        obtain ⟨s2, f2⟩ := r2
        have hloop2 : ∀ e ∈ mainEvents (H1.map handlerEv ++ [Ev.call (.random_bytes 32)]
            ++ (H2.map handlerEv ++ [Ev.call (.insert (w.random s.clock 32))])),
            e.isLoop = true := by
          rw [mainEvents_append, mainEvents_call, mainEvents_call]; simp [Ev.isLoop]
        cases f2 with
        | running => exact absurd rfl b3
        | threw what =>
          refine ⟨_, ?_, hloop2, ?_, ?_, ?_⟩
          · simp only [insertLoop, hi, if_true, hr1, hr2, andThen]
            simp only at a1 b1; rw [b1, a1]; simp
          · simp [insertLoop, hi, hr1, hr2, andThen]
          · simp [insertLoop, hi, hr1, hr2, andThen]
          · intro hs; simp only [insertLoop, hi, if_true, hr1, hr2, andThen]
            exact binv (ainv hs)
        | normal =>
          have hmod : (i + 1) % UINT_RANGE = i + 1 :=
            Nat.mod_eq_of_lt (by unfold UINT_RANGE; omega)
          obtain ⟨X, c1, c2, c3, c4, c5⟩ := ih (i + 1) s2
          have hred : insertLoop w fe (fuel + 1) i s = insertLoop w fe fuel (i + 1) s2 := by
            simp only [insertLoop, hi, if_true, hr1, hr2, andThen, hmod]
          rw [hred]
          refine ⟨H1.map handlerEv ++ [Ev.call (.random_bytes 32)]
            ++ (H2.map handlerEv ++ [Ev.call (.insert (w.random s.clock 32))]) ++ X,
            ?_, ?_, ?_, ?_, ?_⟩
          · simp only at a1 b1; rw [c1, b1, a1]; simp
          · intro e he
            rw [mainEvents_append] at he
            rcases List.mem_append.mp he with h | h
            · exact hloop2 e h
            · exact c2 e h
          · intro hn
            obtain ⟨elems, e1, e2, e3⟩ := c3 hn
            refine ⟨w.random s.clock 32 :: elems, ?_, ?_, ?_⟩
            · rw [mainEvents_append, mainEvents_append, mainEvents_call, mainEvents_call, e1]
              simp [loopEvents]
            · simp [e2]; omega
            · intro e he
              rcases List.mem_cons.mp he with h | h
              · exact ⟨s.clock, h⟩
              · exact e3 e h
          · intro hf; exact c4 (by omega)
          · intro hs; exact c5 (binv (ainv hs))
    · refine ⟨[], by simp [insertLoop, hi], by simp [mainEvents], ?_, by simp [insertLoop, hi],
        by simp [insertLoop, hi]⟩
      intro _
      exact ⟨[], by simp [mainEvents, loopEvents], by simp; omega, by simp⟩

/-- What the wait loop does: it only sleeps, never throws, and ends only once
the flag has been read as set. -/
theorem waitLoop_spec (w : World) : ∀ (fuel : Nat) (s : Proc),
    ∃ (X : List Ev) (n : Nat),
      (waitLoop w fuel s).1.trace = s.trace ++ X
      ∧ mainEvents X = List.replicate n (Ev.call (.usleep 200))
      ∧ (∀ what, (waitLoop w fuel s).2 ≠ .threw what)
      ∧ ((waitLoop w fuel s).2 = .normal → (waitLoop w fuel s).1.g_bShutdown = true)
      ∧ (FlagInv s → FlagInv (waitLoop w fuel s).1) := by
  intro fuel
  induction fuel with
  | zero =>
    intro s
    exact ⟨[], 0, by simp [waitLoop], by simp [mainEvents], by simp [waitLoop],
      by simp [waitLoop], by simp [waitLoop]⟩
  | succ fuel ih =>
    intro s
    obtain ⟨H, d1, d2, _, _⟩ := deliver_spec w s
    have dinv := FlagInv_deliver w s
    by_cases hflag : (deliver w s).g_bShutdown = true
    · refine ⟨H.map handlerEv, 0, ?_, ?_, ?_, ?_, ?_⟩
      · simp [waitLoop, hflag, d1]
      · simp [mainEvents_handlers]
      · simp [waitLoop, hflag]
      · simp [waitLoop, hflag]
      · intro hs; simpa [waitLoop, hflag] using dinv hs
    · obtain ⟨H2, e1, e2, _⟩ := emit_spec w (.call (.usleep 200)) (deliver w s)
      have einv : FlagInv (deliver w s) → FlagInv (emit w (.call (.usleep 200)) (deliver w s)) :=
        fun hs => FlagInv_step _ _ H2 [.call (.usleep 200)] (by simp [Ev.isHandler]) e1 e2 hs
      obtain ⟨X, n, c1, c2, c3, c4, c5⟩ := ih (emit w (.call (.usleep 200)) (deliver w s))
      have hred : waitLoop w (fuel + 1) s
          = waitLoop w fuel (emit w (.call (.usleep 200)) (deliver w s)) := by
        simp [waitLoop, hflag]
      rw [hred]
      refine ⟨H.map handlerEv ++ (H2.map handlerEv ++ [Ev.call (.usleep 200)]) ++ X, n + 1,
        ?_, ?_, c3, c4, ?_⟩
      · rw [c1, e1, d1]; simp
      · rw [mainEvents_append, mainEvents_append, mainEvents_handlers, mainEvents_call, c2]
        simp [List.replicate_succ]
      · intro hs; exact c5 (einv (dinv hs))

theorem filterElementsOf_lt (M : Nat) (argc : Int) (argv : List String) :
    filterElementsOf M argc argv < 2 ^ 32 := by
  unfold filterElementsOf UINT_RANGE
  exact Nat.mod_lt _ (by norm_num)

theorem FlagInv_initial : FlagInv Proc.initial := by
  simp [FlagInv, Proc.initial]

theorem stopStmts_call (j : Nat) (c : Call) (h : stopStmts.get? j = some (.call c)) : j = 2 := by
  unfold stopStmts at h
  match j with
  | 0 => simp at h
  | 1 => simp at h
  | 2 => rfl
  | 3 => simp at h
  | 4 => simp at h
  | n + 5 => simp at h

/-- The shape of every run of the try block of `main`. -/
theorem mainBody_shape (w : World) (fuel : Nat) (argc : Int) (argv : List String) :
    FlagInv (mainBody w fuel argc argv Proc.initial).1 ∧
    ((∃ k what, k ≤ (setupEvents w argc argv).length
        ∧ mainEvents (mainBody w fuel argc argv Proc.initial).1.trace
            = (setupEvents w argc argv).take k
        ∧ (mainBody w fuel argc argv Proc.initial).2 = .threw what)
    ∨ (∃ L, (∀ e ∈ L, e.isLoop = true)
        ∧ mainEvents (mainBody w fuel argc argv Proc.initial).1.trace
            = setupEvents w argc argv ++ L
        ∧ (mainBody w fuel argc argv Proc.initial).2 ≠ .normal
        ∧ ((mainBody w fuel argc argv Proc.initial).2 = .running →
            fuel ≤ filterElementsOf w.ULONG_MAX argc argv))
    ∨ (∃ elems k what, GoodElems w argc argv elems ∧ k ≤ (startEvents w argc argv).length
        ∧ mainEvents (mainBody w fuel argc argv Proc.initial).1.trace
            = setupEvents w argc argv ++ loopEvents elems ++ (startEvents w argc argv).take k
        ∧ (mainBody w fuel argc argv Proc.initial).2 = .threw what)
    ∨ (∃ elems n, GoodElems w argc argv elems
        ∧ mainEvents (mainBody w fuel argc argv Proc.initial).1.trace
            = setupEvents w argc argv ++ loopEvents elems ++ startEvents w argc argv
              ++ List.replicate n (Ev.call (.usleep 200))
        ∧ (mainBody w fuel argc argv Proc.initial).2 = .running)
    ∨ (∃ elems n X Y, GoodElems w argc argv elems
        ∧ (mainBody w fuel argc argv Proc.initial).1.trace = X ++ Y
        ∧ mainEvents X
            = setupEvents w argc argv ++ loopEvents elems ++ startEvents w argc argv
              ++ List.replicate n (Ev.call (.usleep 200))
        ∧ (∃ e ∈ X, e.isHandler = true)
        ∧ ((mainEvents Y = stopEvents ∧ (mainBody w fuel argc argv Proc.initial).2 = .normal)
          ∨ (∃ what, mainEvents Y = stopEvents.take 3
              ∧ (mainBody w fuel argc argv Proc.initial).2 = .threw what)))) := by
  have hfe := filterElementsOf_lt w.ULONG_MAX argc argv
  obtain ⟨X1, k1, a1, a2, a3, a4, a5, a6, a7⟩ := exec_spec w (setupStmts w argc argv) Proc.initial
  have i1 := a7 FlagInv_initial
  generalize hr1 : exec w (setupStmts w argc argv) Proc.initial = r1 at a1 a4 a5 a6 i1
  obtain ⟨s1, f1⟩ := r1
  simp only [Proc.initial, List.nil_append] at a1
  simp only at a4 a5 a6 i1
  cases f1 with
  | running => exact absurd rfl a5
  | threw what =>
    have hb : mainBody w fuel argc argv Proc.initial = (s1, .threw what) := by
      simp only [mainBody, hr1, andThen]
    rw [hb]
    refine ⟨i1, Or.inl ⟨k1, what, ?_, ?_, rfl⟩⟩
    · simpa [setupEvents] using a3
    · simp only [a1, a2, setupEvents, List.map_take]
  | normal =>
    have hk1 := a4 rfl
    have hS : mainEvents s1.trace = setupEvents w argc argv := by
      rw [a1, a2, hk1, List.take_length, setupEvents]
    obtain ⟨X2, b1, b2, b3, b4, b5⟩ :=
      insertLoop_spec w (filterElementsOf w.ULONG_MAX argc argv) hfe fuel 0 s1
    have i2 := b5 i1
    generalize hr2 : insertLoop w (filterElementsOf w.ULONG_MAX argc argv) fuel 0 s1 = r2
      at b1 b3 b4 i2
    obtain ⟨s2, f2⟩ := r2
    simp only at b1 b3 b4 i2
    have hL : mainEvents s2.trace = setupEvents w argc argv ++ mainEvents X2 := by
      rw [b1, mainEvents_append, hS]
    cases f2 with
    | running =>
      have hb : mainBody w fuel argc argv Proc.initial = (s2, .running) := by
        simp only [mainBody, hr1, hr2, andThen]
      rw [hb]
      refine ⟨i2, Or.inr (Or.inl ⟨mainEvents X2, b2, hL, by simp, fun _ => ?_⟩)⟩
      by_contra hc
      exact b4 (by omega) rfl
    | threw what =>
      have hb : mainBody w fuel argc argv Proc.initial = (s2, .threw what) := by
        simp only [mainBody, hr1, hr2, andThen]
      rw [hb]
      exact ⟨i2, Or.inr (Or.inl ⟨mainEvents X2, b2, hL, by simp, by simp⟩)⟩
    | normal =>
      obtain ⟨elems, e1, e2, e3⟩ := b3 rfl
      have hgood : GoodElems w argc argv elems := ⟨by simpa using e2, e3⟩
      rw [e1] at hL
      obtain ⟨X3, k3, c1, c2, c3, c4, c5, c6, c7⟩ :=
        exec_spec w (startStmts argc argv (w.coinParams (argv.getD 1 ""))) s2
      have i3 := c7 i2
      generalize hr3 : exec w (startStmts argc argv (w.coinParams (argv.getD 1 ""))) s2 = r3
        at c1 c4 c5 c6 i3
      obtain ⟨s3, f3⟩ := r3
      simp only at c1 c4 c5 c6 i3
      cases f3 with
      | running => exact absurd rfl c5
      | threw what =>
        have hb : mainBody w fuel argc argv Proc.initial = (s3, .threw what) := by
          simp only [mainBody, hr1, hr2, hr3, andThen]
        rw [hb]
        refine ⟨i3, Or.inr (Or.inr (Or.inl ⟨elems, k3, what, hgood, ?_, ?_, rfl⟩))⟩
        · simpa [startEvents] using c3
        · simp only [c1, mainEvents_append, hL, c2, startEvents, List.map_take]
      | normal =>
        have hk3 := c4 rfl
        have hT : mainEvents s3.trace
            = setupEvents w argc argv ++ loopEvents elems ++ startEvents w argc argv := by
          rw [c1, mainEvents_append, hL, c2, hk3, List.take_length, startEvents]
        obtain ⟨X4, n, d1, d2, d3, d4, d5⟩ := waitLoop_spec w fuel s3
        have i4 := d5 i3
        generalize hr4 : waitLoop w fuel s3 = r4 at d1 d3 d4 i4
        obtain ⟨s4, f4⟩ := r4
        simp only at d1 d3 d4 i4
        have hW : mainEvents s4.trace
            = setupEvents w argc argv ++ loopEvents elems ++ startEvents w argc argv
              ++ List.replicate n (Ev.call (.usleep 200)) := by
          rw [d1, mainEvents_append, hT, d2]
        cases f4 with
        | threw what => exact absurd rfl (d3 what)
        | running =>
          have hb : mainBody w fuel argc argv Proc.initial = (s4, .running) := by
            simp only [mainBody, hr1, hr2, hr3, hr4, andThen]
          rw [hb]
          exact ⟨i4, Or.inr (Or.inr (Or.inr (Or.inl ⟨elems, n, hgood, hW, rfl⟩)))⟩
        | normal =>
          have hflag := d4 rfl
          have hhand : ∃ e ∈ s4.trace, e.isHandler = true := i4.mp hflag
          obtain ⟨X5, k5, g1, g2, g3, g4, g5, g6, g7⟩ := exec_spec w stopStmts s4
          have i5 := g7 i4
          generalize hr5 : exec w stopStmts s4 = r5 at g1 g4 g5 g6 i5
          obtain ⟨s5, f5⟩ := r5
          simp only at g1 g4 g5 g6 i5
          have hb : mainBody w fuel argc argv Proc.initial = (s5, f5) := by
            simp only [mainBody, hr1, hr2, hr3, hr4, hr5, andThen]
          rw [hb]
          refine ⟨i5, Or.inr (Or.inr (Or.inr (Or.inr
            ⟨elems, n, s4.trace, X5, hgood, g1, hW, hhand, ?_⟩)))⟩
          cases f5 with
          | running => exact absurd rfl g5
          | normal =>
            left
            refine ⟨?_, rfl⟩
            rw [g2, g4 rfl, List.take_length, stopEvents]
          | threw what =>
            right
            obtain ⟨j, c, hj, hc⟩ := g6 what rfl
            have hj2 := stopStmts_call j c hc
            subst hj2
            refine ⟨what, ?_, rfl⟩
            rw [g2, hj, stopEvents, List.map_take]

theorem catchStmts_call (what : String) (j : Nat) (c : Call) :
    (catchStmts what).get? j ≠ some (.call c) := by
  unfold catchStmts
  match j with
  | 0 => simp
  | 1 => simp
  | n + 2 => simp

/-- What the catch block does. -/
theorem catch_spec (w : World) (what : String) (s : Proc) :
    ∃ Z, (exec w (catchStmts what) s).1.trace = s.trace ++ Z
      ∧ mainEvents Z = catchEvents what
      ∧ (FlagInv s → FlagInv (exec w (catchStmts what) s).1) := by
  obtain ⟨Z, k, a1, a2, _, a4, a5, a6, a7⟩ := exec_spec w (catchStmts what) s
  refine ⟨Z, a1, ?_, a7⟩
  have hn : (exec w (catchStmts what) s).2 = .normal := by
    cases hf : (exec w (catchStmts what) s).2 with
    | normal => rfl
    | running => exact absurd hf a5
    | threw m =>
      obtain ⟨j, c, _, hc⟩ := a6 m hf
      exact absurd hc (catchStmts_call what j c)
  rw [a2, a4 hn, List.take_length, catchEvents]

/-- The shape of every run of `main` that passes the usage check. -/
theorem main_shape (w : World) (fuel : Nat) (argc : Int) (argv : List String)
    (hargc : ¬ argc < 3) :
    FlagInv (main w fuel argc argv).1 ∧
    ((∃ k what, k ≤ (setupEvents w argc argv).length
        ∧ mainEvents (main w fuel argc argv).1.trace
            = (setupEvents w argc argv).take k ++ catchEvents what
        ∧ (main w fuel argc argv).2 = some (-2))
    ∨ (∃ L tail, (∀ e ∈ L, e.isLoop = true)
        ∧ mainEvents (main w fuel argc argv).1.trace = setupEvents w argc argv ++ L ++ tail
        ∧ ((∃ what, tail = catchEvents what ∧ (main w fuel argc argv).2 = some (-2))
          ∨ (tail = [] ∧ (main w fuel argc argv).2 = none
              ∧ fuel ≤ filterElementsOf w.ULONG_MAX argc argv)))
    ∨ (∃ elems k what, GoodElems w argc argv elems ∧ k ≤ (startEvents w argc argv).length
        ∧ mainEvents (main w fuel argc argv).1.trace
            = setupEvents w argc argv ++ loopEvents elems ++ (startEvents w argc argv).take k
              ++ catchEvents what
        ∧ (main w fuel argc argv).2 = some (-2))
    ∨ (∃ elems n, GoodElems w argc argv elems
        ∧ mainEvents (main w fuel argc argv).1.trace
            = setupEvents w argc argv ++ loopEvents elems ++ startEvents w argc argv
              ++ List.replicate n (Ev.call (.usleep 200))
        ∧ (main w fuel argc argv).2 = none)
    ∨ (∃ elems n X Y, GoodElems w argc argv elems
        ∧ (main w fuel argc argv).1.trace = X ++ Y
        ∧ mainEvents X
            = setupEvents w argc argv ++ loopEvents elems ++ startEvents w argc argv
              ++ List.replicate n (Ev.call (.usleep 200))
        ∧ (∃ e ∈ X, e.isHandler = true)
        ∧ ((mainEvents Y = stopEvents ∧ (main w fuel argc argv).2 = some 0)
          ∨ (∃ what, mainEvents Y = stopEvents.take 3 ++ catchEvents what
              ∧ (main w fuel argc argv).2 = some (-2))))) := by
  obtain ⟨hinv, hshape⟩ := mainBody_shape w fuel argc argv
  generalize hr : mainBody w fuel argc argv Proc.initial = r at hinv hshape
  obtain ⟨s, f⟩ := r
  simp only at hinv hshape
  cases f with
  | normal =>
    have hm : main w fuel argc argv = (s, some 0) := by
      simp only [main, hargc, if_false, hr]
    rw [hm]
    refine ⟨hinv, ?_⟩
    rcases hshape with ⟨_, _, _, _, h⟩ | ⟨_, _, _, h, _⟩ | ⟨_, _, _, _, _, _, h⟩
      | ⟨_, _, _, _, h⟩ | ⟨elems, n, X, Y, hg, h1, h2, h3, h4⟩
    · cases h
    · exact absurd rfl h
    · cases h
    · cases h
    · refine Or.inr (Or.inr (Or.inr (Or.inr ⟨elems, n, X, Y, hg, h1, h2, h3, ?_⟩)))
      rcases h4 with ⟨h5, _⟩ | ⟨_, _, h⟩
      · exact Or.inl ⟨h5, rfl⟩
      · cases h
  | running =>
    have hm : main w fuel argc argv = (s, none) := by
      simp only [main, hargc, if_false, hr]
    rw [hm]
    refine ⟨hinv, ?_⟩
    rcases hshape with ⟨_, _, _, _, h⟩ | ⟨L, hL, h1, _, h3⟩ | ⟨_, _, _, _, _, _, h⟩
      | ⟨elems, n, hg, h1, _⟩ | ⟨_, _, _, _, _, _, _, _, h4⟩
    · cases h
    · exact Or.inr (Or.inl ⟨L, [], hL, by simpa using h1, Or.inr ⟨rfl, rfl, h3 rfl⟩⟩)
    · cases h
    · exact Or.inr (Or.inr (Or.inr (Or.inl ⟨elems, n, hg, h1, rfl⟩)))
    · rcases h4 with ⟨_, h⟩ | ⟨_, _, h⟩ <;> cases h
  | threw what =>
    obtain ⟨Z, z1, z2, z3⟩ := catch_spec w what s
    have hm : main w fuel argc argv = ((exec w (catchStmts what) s).1, some (-2)) := by
      simp only [main, hargc, if_false, hr]
    rw [hm]
    refine ⟨z3 hinv, ?_⟩
    simp only [z1, mainEvents_append, z2]
    rcases hshape with ⟨k, _, hk, h1, _⟩ | ⟨L, hL, h1, _, _⟩ | ⟨elems, k, _, hg, hk, h1, _⟩
      | ⟨_, _, _, _, h⟩ | ⟨elems, n, X, Y, hg, h1, h2, h3, h4⟩
    · exact Or.inl ⟨k, what, hk, by rw [h1], trivial⟩
    · exact Or.inr (Or.inl ⟨L, catchEvents what, hL, by rw [h1], Or.inl ⟨what, rfl, trivial⟩⟩)
    · exact Or.inr (Or.inr (Or.inl ⟨elems, k, what, hg, hk, by rw [h1], trivial⟩))
    · cases h
    · refine Or.inr (Or.inr (Or.inr (Or.inr ⟨elems, n, X, Y ++ Z, hg, ?_, h2, h3, ?_⟩)))
      · rw [h1, List.append_assoc]
      · rcases h4 with ⟨_, h⟩ | ⟨m, h5, _⟩
        · cases h
        · exact Or.inr ⟨what, by rw [mainEvents_append, h5, z2], trivial⟩

theorem main_usage (w : World) (fuel : Nat) (argc : Int) (argv : List String) (h : argc < 3) :
    main w fuel argc argv =
      ({ g_bShutdown := false, handlers := [], clock := 1, trace := [.cerr (usageText w argv)] },
        some (-1)) := by
  simp [main, h, emit, deliver, Proc.initial]

theorem mem_loopEvents (elems : List Bytes) (e : Ev) (h : e ∈ loopEvents elems) :
    e.isLoop = true := by
  induction elems with
  | nil => simp [loopEvents] at h
  | cons a t ih =>
    simp only [loopEvents, List.map_cons, List.flatten_cons, List.mem_append, List.mem_cons,
      List.mem_singleton, List.not_mem_nil, or_false] at h
    rcases h with (h | h) | h
    · subst h; rfl
    · subst h; rfl
    · exact ih h

theorem mem_mainEvents (t : List Ev) (e : Ev) :
    e ∈ mainEvents t ↔ e ∈ t ∧ e.isHandler = false := by
  simp [mainEvents]

theorem filter_mainEvents (p : Ev → Bool) (hp : ∀ e, p e = true → e.isHandler = false)
    (t : List Ev) : t.filter p = (mainEvents t).filter p := by
  induction t with
  | nil => rfl
  | cons a t ih =>
    by_cases ha : a.isHandler = true
    · have hpa : p a = false := by
        cases h : p a with
        | false => rfl
        | true => rw [hp a h] at ha; cases ha
      simp [mainEvents, List.filter_cons, ha, hpa] at ih ⊢
      exact ih
    · have ha2 : a.isHandler = false := by simpa using ha
      simp only [mainEvents, List.filter_cons, ha2, Bool.not_false, if_true] at ih ⊢
      rw [ih]

theorem filter_eq_nil_of_take (p : Ev → Bool) (l : List Ev) (k : Nat) (h : l.filter p = []) :
    (l.take k).filter p = [] := by
  rw [List.filter_eq_nil_iff] at h ⊢
  exact fun a ha => h a (List.mem_of_mem_take ha)

theorem filter_replicate_usleep (p : Ev → Bool) (n : Nat) (h : p (.call (.usleep 200)) = false) :
    (List.replicate n (Ev.call (.usleep 200))).filter p = [] := by
  rw [List.filter_eq_nil_iff]
  intro a ha
  rw [List.eq_of_mem_replicate ha, h]; simp

theorem filterUse_loopEvents (elems : List Bytes) :
    (loopEvents elems).filter Ev.isFilterUse = elems.map fun e => Ev.call (.insert e) := by
  induction elems with
  | nil => rfl
  | cons a t ih =>
    simp only [loopEvents, List.map_cons, List.flatten_cons, List.filter_append] at ih ⊢
    rw [ih]; rfl

theorem start_mem_take (w : World) (argc : Int) (argv : List String) (k : Nat) (host port : String)
    (h : Ev.call (.start host port) ∈ (startEvents w argc argv).take k) :
    (startEvents w argc argv).take k = startEvents w argc argv := by
  by_cases hk : 8 ≤ k
  · exact List.take_of_length_le (by simpa [startEvents, startStmts] using hk)
  · exfalso
    have : k < 8 := by omega
    interval_cases k <;> simp [startEvents, startStmts, Stmt.ev] at h

theorem filterBuild_loopEvents (elems : List Bytes) :
    (loopEvents elems).filter Ev.isFilterBuild = elems.map fun e => Ev.call (.insert e) := by
  induction elems with
  | nil => rfl
  | cons a t ih =>
    simp only [loopEvents, List.map_cons, List.flatten_cons, List.filter_append] at ih ⊢
    rw [ih]; rfl

theorem isFilterBuild_not_handler (e : Ev) (h : Ev.isFilterBuild e = true) :
    e.isHandler = false := by
  cases e <;> first | rfl | cases h

theorem count_mainEvents (t : List Ev) (e : Ev) (h : e.isHandler = false) :
    t.count e = (mainEvents t).count e := by
  induction t with
  | nil => rfl
  | cons a t ih =>
    by_cases ha : a.isHandler = true
    · have hne : a ≠ e := fun h0 => by rw [h0, h] at ha; cases ha
      have : (a == e) = false := by simpa using hne
      simp only [mainEvents, List.filter_cons, ha, Bool.not_true] at ih ⊢
      simp only [List.count_cons, this, ih]
      simp
    · have ha2 : a.isHandler = false := by simpa using ha
      simp only [mainEvents, List.filter_cons, ha2, Bool.not_false, if_true] at ih ⊢
      simp only [List.count_cons, ih]

theorem count_append_cons_one (pre post : List Ev) (e : Ev)
    (h : (pre ++ e :: post).count e = 1) : e ∉ pre ∧ e ∉ post := by
  rw [List.count_append, List.count_cons_self] at h
  constructor
  · exact List.count_eq_zero.mp (by omega)
  · exact List.count_eq_zero.mp (by omega)

theorem prefix_of_first (X Y pre post : List Ev) (e : Ev) (hX : e ∉ X)
    (h : X ++ Y = pre ++ e :: post) : ∃ r, pre = X ++ r := by
  rcases List.append_eq_append_iff.mp h with ⟨a, ha, _⟩ | ⟨c, hc, hc2⟩
  · exact ⟨a, ha⟩
  · cases c with
    | nil => exact ⟨[], by simpa using hc.symm⟩
    | cons d c =>
      exfalso
      simp only [List.cons_append, List.cons.injEq] at hc2
      apply hX
      rw [hc, hc2.1]
      simp

theorem stop_not_mem_body (w : World) (argc : Int) (argv : List String) (elems : List Bytes)
    (n : Nat) :
    Ev.call .stop ∉ setupEvents w argc argv ++ loopEvents elems ++ startEvents w argc argv
      ++ List.replicate n (Ev.call (.usleep 200)) := by
  simp only [List.mem_append, not_or]
  refine ⟨⟨⟨?_, ?_⟩, ?_⟩, ?_⟩
  · simp [setupEvents, setupStmts, Stmt.ev]
  · intro h; have := mem_loopEvents elems _ h; cases this
  · simp [startEvents, startStmts, Stmt.ev]
  · intro h; have := List.eq_of_mem_replicate h; cases this

theorem start_mem_body (w : World) (argc : Int) (argv : List String) (elems : List Bytes)
    (n : Nat) :
    Ev.call (.start (hostOf argv) (portOf (w.coinParams (argv.getD 1 "")) argc argv))
      ∈ setupEvents w argc argv ++ loopEvents elems ++ startEvents w argc argv
        ++ List.replicate n (Ev.call (.usleep 200)) := by
  simp only [List.mem_append]
  left; right
  simp [startEvents, startStmts, Stmt.ev]

/-- C1: the merkle-block handler. When the `PartialMerkleTree` constructor throws
(a `std::exception` with message `what`), the handler prints the three head
lines, then only the line "Error constructing partial merkle tree: what" (no
"should contain txs:" heading and no hash), then the separator; nothing
escapes and `blockTxIndex` is reset to 0. When the constructor succeeds, it
prints the heading and then one line per returned hash, in the returned
order, numbered 0, 1, 2, ... (the vector holds at most `2^32` hashes, the
range of the `unsigned int` counter), then the separator, and resets
`blockTxIndex` to 0. -/
theorem onMerkleBlock_contract {Tree : Type} (lib : MerkleLib Tree)
    (merkleblock : ChainMerkleBlock) (blockTxIndex : Nat) :
    (∀ what : String,
      lib.construct merkleblock.nTxs merkleblock.hashes merkleblock.flags
          merkleblock.merkleRoot = .error what →
        onMerkleBlock lib merkleblock blockTxIndex =
          { output := merkleBlockHead merkleblock
              ++ [.str "Error constructing partial merkle tree: ", .str what, .endl]
              ++ [.str "--------------------", .endl]
            blockTxIndex := 0
            escaped := none })
    ∧ (∀ tree : Tree,
      lib.construct merkleblock.nTxs merkleblock.hashes merkleblock.flags
          merkleblock.merkleRoot = .ok tree →
      (lib.getTxHashesLittleEndianVector tree).length ≤ 2 ^ 32 →
        onMerkleBlock lib merkleblock blockTxIndex =
          { output := merkleBlockHead merkleblock
              ++ ([.str "should contain txs:", .endl]
                  ++ numberedLines lib.getHex (lib.getTxHashesLittleEndianVector tree))
              ++ [.str "--------------------", .endl]
            blockTxIndex := 0
            escaped := none }) := by
  constructor
  · intro what h
    simp [onMerkleBlock, merkleTryBlock, h]
  · intro tree h hlen
    have := printTxHashes_eq lib.getHex (lib.getTxHashesLittleEndianVector tree) 0 (by omega)
    simp only [onMerkleBlock, merkleTryBlock, h, this, numberedLines, List.enum]

/-- Witness for C1: a block whose tree cannot be built, and a block with two
hashes. -/
theorem onMerkleBlock_contract_witness :
    (demoLib.construct (demoBlock 0).nTxs (demoBlock 0).hashes (demoBlock 0).flags
        (demoBlock 0).merkleRoot = .error "empty"
      ∧ (onMerkleBlock demoLib (demoBlock 0) 5).output =
          merkleBlockHead (demoBlock 0)
            ++ [.str "Error constructing partial merkle tree: ", .str "empty", .endl]
            ++ [.str "--------------------", .endl])
    ∧ (demoLib.construct (demoBlock 2).nTxs (demoBlock 2).hashes (demoBlock 2).flags
        (demoBlock 2).merkleRoot = .ok [[1], [2]]
      ∧ (demoLib.getTxHashesLittleEndianVector [[1], [2]]).length ≤ 2 ^ 32
      ∧ (onMerkleBlock demoLib (demoBlock 2) 5).output =
          merkleBlockHead (demoBlock 2)
            ++ [.str "should contain txs:", .endl,
                .str "  tx ", .num 0, .str ": ", .str "00", .endl,
                .str "  tx ", .num 1, .str ": ", .str "00", .endl]
            ++ [.str "--------------------", .endl]) :=
  ⟨⟨rfl, by rw [(onMerkleBlock_contract demoLib (demoBlock 0) 5).1 "empty" rfl]⟩,
   ⟨rfl, by decide,
    by rw [(onMerkleBlock_contract demoLib (demoBlock 2) 5).2 [[1], [2]] rfl (by decide)]; rfl⟩⟩

/-! ## MerkleProof -/

/-- C2: for 4 leaves of which exactly leaf 2 matches (the proof consists of the
hash of the left pair, `hash2` and `hash3`, with the flag bits 1 0 1 1 0),
`verify` accepts against the true merkle root of the 4 leaves and returns
exactly the match `(2, hash2)` together with that root, which is the
combination of the two pair hashes. -/
theorem verify_four_leaves_third_matches (combine : Bytes → Bytes → Bytes)
    (hash0 hash1 hash2 hash3 : Bytes) :
    verify combine 4 [combine hash0 hash1, hash2, hash3] [true, false, true, true, false]
        (merkleRoot combine [hash0, hash1, hash2, hash3])
      = .ok { matched := [(2, hash2)], root := merkleRoot combine [hash0, hash1, hash2, hash3] }
    ∧ merkleRoot combine [hash0, hash1, hash2, hash3]
      = combine (combine hash0 hash1) (combine hash2 hash3) := by
  have hroot : merkleRoot combine [hash0, hash1, hash2, hash3]
      = combine (combine hash0 hash1) (combine hash2 hash3) := by
    simp [merkleRoot, merkleRootFrom, merkleLevel]
  refine ⟨?_, hroot⟩
  rw [hroot]
  have hh : treeHeight 4 = 2 := by decide
  simp [verify, hh, traverse, treeWidth]

/-! ## MembershipFilter -/

/-- C5: when the headers-synched event fires, the handler calls `syncBlocks`
with an empty list of hashes and with the current time minus 36000 seconds
(the subtraction is done in `time_t`; any time at which it does not overflow). -/
theorem onHeadersSynched_cutoff (now : Int) (hlo : -2 ^ 63 + 36000 ≤ now) (hhi : now < 2 ^ 63) :
    onHeadersSynched now =
      [.cout [.str "NetworkSync headers synched.", .endl], .call .time,
       .call (.syncBlocks [] (now - 36000))] := by
  have : toTimeT (now - 36000) = now - 36000 := by
    unfold toTimeT
    rw [Int.emod_eq_of_lt (by omega) (by omega)]
    omega
  simp [onHeadersSynched, this]

/-- Witness for C5: the event at time 1700000000. -/
theorem onHeadersSynched_cutoff_witness :
    (-2 ^ 63 + 36000 ≤ (1700000000 : Int) ∧ (1700000000 : Int) < 2 ^ 63)
    ∧ onHeadersSynched 1700000000 =
      [.cout [.str "NetworkSync headers synched.", .endl], .call .time,
       .call (.syncBlocks [] (1700000000 - 36000))] :=
  ⟨⟨by decide, by decide⟩, onHeadersSynched_cutoff 1700000000 (by decide) (by decide)⟩

/-- C9: the matched-transaction handler prints `tx (a/b)` with `a = txIndex` and
`b = (txTotal - 1) mod 2^32`. For `1 ≤ txTotal` (an `unsigned int`) `b` is the
last index `txTotal - 1` and `a ≤ b` whenever `txIndex < txTotal`; for
`txTotal = 0` the subtraction wraps and `b` is 4294967295. -/
theorem onMerkleTx_pair (txHashHex : String) (txIndex txTotal : Nat) :
    onMerkleTx txHashHex txIndex txTotal =
        [.str "  tx (", .num txIndex, .str "/", .num (toUInt ((txTotal : Int) - 1)),
         .str "): ", .str txHashHex, .endl]
    ∧ ((toUInt ((txTotal : Int) - 1) : Nat) : Int) = ((txTotal : Int) - 1) % 2 ^ 32
    ∧ (1 ≤ txTotal → txTotal < 2 ^ 32 →
        toUInt ((txTotal : Int) - 1) = txTotal - 1
        ∧ (txIndex < txTotal → txIndex ≤ toUInt ((txTotal : Int) - 1)))
    ∧ (txTotal = 0 → toUInt ((txTotal : Int) - 1) = 4294967295) := by
  refine ⟨rfl, ?_, ?_, ?_⟩
  · unfold toUInt UINT_RANGE
    rw [Int.toNat_of_nonneg (Int.emod_nonneg _ (by norm_num))]
    norm_num
  · intro h1 h2
    have : ((txTotal : Int) - 1) = ((txTotal - 1 : Nat) : Int) := by omega
    rw [this, toUInt_of_lt _ (by omega)]
    exact ⟨rfl, fun h => by omega⟩
  · intro h; subst h; decide

/-- Witness for C9: index 0 of total 1 prints as 0/0, and total 0 wraps. -/
theorem onMerkleTx_pair_witness :
    ((1 ≤ 1 ∧ 1 < 2 ^ 32 ∧ 0 < 1)
      ∧ toUInt (((1 : Nat) : Int) - 1) = 1 - 1 ∧ 0 ≤ toUInt (((1 : Nat) : Int) - 1))
    ∧ ((0 : Nat) = 0 ∧ toUInt (((0 : Nat) : Int) - 1) = 4294967295) :=
  ⟨⟨⟨by decide, by decide, by decide⟩,
    ((onMerkleTx_pair "ab" 0 1).2.2.1 (by decide) (by decide)).1,
    ((onMerkleTx_pair "ab" 0 1).2.2.1 (by decide) (by decide)).2 (by decide)⟩,
   ⟨rfl, (onMerkleTx_pair "cd" 0 0).2.2.2 rfl⟩⟩

/-! ## `main` -/

/-- C4: in every run of `main` that reaches `networkSync.start`, the events that
use the filter are, in this order: its construction, the inserts, one
`setBloomFilter`, and `start`. So the filter is installed exactly once, before
the start, every insert comes before the installation and none after it. -/
theorem filter_installed_before_start (w : World) (fuel : Nat) (argc : Int) (argv : List String)
    (hstart : ∃ host port, Ev.call (.start host port) ∈ (main w fuel argc argv).1.trace) :
    ∃ elems : List Bytes,
      (main w fuel argc argv).1.trace.filter Ev.isFilterUse =
        [Ev.call (.BloomFilter (filterElementsOf w.ULONG_MAX argc argv) (1, 1000) 0 0)]
          ++ elems.map (fun e => Ev.call (.insert e))
          ++ [Ev.call .setBloomFilter,
              Ev.call (.start (hostOf argv) (portOf (w.coinParams (argv.getD 1 "")) argc argv))]
      := by
  obtain ⟨host, port, he⟩ := hstart
  by_cases hargc : argc < 3
  · rw [main_usage w fuel argc argv hargc] at he; simp at he
  have hp : ∀ e, Ev.isFilterUse e = true → e.isHandler = false := by
    intro e h
    cases e <;> first | rfl | cases h
  have hm : Ev.call (.start host port) ∈ mainEvents (main w fuel argc argv).1.trace :=
    (mem_mainEvents _ _).mpr ⟨he, rfl⟩
  rw [filter_mainEvents _ hp]
  have hS : (setupEvents w argc argv).filter Ev.isFilterUse
      = [Ev.call (.BloomFilter (filterElementsOf w.ULONG_MAX argc argv) (1, 1000) 0 0)] := rfl
  have hT : (startEvents w argc argv).filter Ev.isFilterUse
      = [Ev.call .setBloomFilter,
         Ev.call (.start (hostOf argv) (portOf (w.coinParams (argv.getD 1 "")) argc argv))] := rfl
  have hU : stopEvents.filter Ev.isFilterUse = [] := rfl
  have hC : ∀ what, (catchEvents what).filter Ev.isFilterUse = [] := fun _ => rfl
  have hnS : Ev.call (.start host port) ∉ setupEvents w argc argv := by
    simp [setupEvents, setupStmts, Stmt.ev]
  have hnC : ∀ what, Ev.call (.start host port) ∉ catchEvents what := by
    intro what; simp [catchEvents, catchStmts, Stmt.ev]
  obtain ⟨_, hshape⟩ := main_shape w fuel argc argv hargc
  rcases hshape with ⟨k, what, _, h1, _⟩ | ⟨L, tail, hL, h1, h2⟩ | ⟨elems, k, what, _, _, h1, _⟩
    | ⟨elems, n, _, h1, _⟩ | ⟨elems, n, X, Y, _, h1, h2, _, h4⟩
  · exfalso
    rw [h1] at hm
    rcases List.mem_append.mp hm with h | h
    · exact hnS (List.mem_of_mem_take h)
    · exact hnC what h
  · exfalso
    rw [h1] at hm
    rcases List.mem_append.mp hm with h | h
    · rcases List.mem_append.mp h with h | h
      · exact hnS h
      · have := hL _ h; cases this
    · rcases h2 with ⟨what, ht, _⟩ | ⟨ht, _⟩
      · rw [ht] at h; exact hnC what h
      · rw [ht] at h; cases h
  · rw [h1] at hm
    simp only [List.mem_append] at hm
    rcases hm with ((h | h) | h) | h
    · exact absurd h hnS
    · have := mem_loopEvents elems _ h; cases this
    · rw [h1, start_mem_take w argc argv k host port h]
      refine ⟨elems, ?_⟩
      simp only [List.filter_append, hS, hT, hC, filterUse_loopEvents, List.append_nil]
    · exact absurd h (hnC what)
  · refine ⟨elems, ?_⟩
    rw [h1]
    simp only [List.filter_append, hS, hT, filterUse_loopEvents,
      filter_replicate_usleep Ev.isFilterUse n rfl, List.append_nil]
  · refine ⟨elems, ?_⟩
    rw [h1, mainEvents_append, h2]
    have hY : (mainEvents Y).filter Ev.isFilterUse = [] := by
      rcases h4 with ⟨h5, _⟩ | ⟨what, h5, _⟩
      · rw [h5, hU]
      · rw [h5, List.filter_append, filter_eq_nil_of_take _ _ _ hU, hC]; rfl
    simp only [List.filter_append, hS, hT, filterUse_loopEvents,
      filter_replicate_usleep Ev.isFilterUse n rfl, List.append_nil, hY]

/-- Witness for C4: a run with two filter elements that starts the sync. -/
theorem filter_installed_before_start_witness :
    (∃ host port, Ev.call (.start host port)
        ∈ (main demoWorld 60 5 ["netsync", "bitcoin", "localhost", "18333", "2"]).1.trace)
    ∧ ∃ elems : List Bytes,
      (main demoWorld 60 5 ["netsync", "bitcoin", "localhost", "18333", "2"]).1.trace.filter
          Ev.isFilterUse =
        [Ev.call (.BloomFilter 2 (1, 1000) 0 0)]
          ++ elems.map (fun e => Ev.call (.insert e))
          ++ [Ev.call .setBloomFilter, Ev.call (.start "localhost" "18333")] :=
  ⟨⟨"localhost", "18333", by decide⟩,
   filter_installed_before_start demoWorld 60 5 ["netsync", "bitcoin", "localhost", "18333", "2"]
     ⟨"localhost", "18333", by decide⟩⟩

/-- C8: the filter set-up. The insertion loop, run for any element count below
`2^32` with more fuel than elements, does not run out of fuel, and when no
call throws it inserts exactly that many elements, each the result of a
`random_bytes(32)` call. In every run of `main` that reaches `setBloomFilter`
the printed settings (elements, 0.001, 0, 0) are followed by the constructor
call with the same element count, rate 1/1000, tweak 0 and flags 0, and then
by exactly `filterElements` inserts of such elements, which are 32 bytes long
when `random_bytes(n)` returns `n` bytes. -/
theorem bloom_filter_setup (w : World) (fuel : Nat) (argc : Int) (argv : List String) :
    (∀ (fe n : Nat) (s : Proc), fe < 2 ^ 32 → fe < n →
      (insertLoop w fe n 0 s).2 ≠ .running
      ∧ ((insertLoop w fe n 0 s).2 = .normal →
          ∃ elems : List Bytes, elems.length = fe
            ∧ (∀ e ∈ elems, ∃ c, e = w.random c 32)
            ∧ (insertLoop w fe n 0 s).1.trace.filter Ev.isFilterBuild
                = s.trace.filter Ev.isFilterBuild ++ elems.map fun e => Ev.call (.insert e)))
    ∧ filterElementsOf w.ULONG_MAX argc argv < 2 ^ 32
    ∧ (Ev.call .setBloomFilter ∈ (main w fuel argc argv).1.trace →
        ∃ elems : List Bytes,
          (main w fuel argc argv).1.trace.filter Ev.isFilterBuild
            = [Ev.cout [.endl, .str "Bloom filter settings", .endl,
                  .str "---------------------", .endl,
                  .str "  elements:            ",
                  .num (filterElementsOf w.ULONG_MAX argc argv), .endl,
                  .str "  false positive rate: 0.001", .endl,
                  .str "  nTweak:              0", .endl,
                  .str "  nFlags:              0", .endl],
               Ev.call (.BloomFilter (filterElementsOf w.ULONG_MAX argc argv) (1, 1000) 0 0)]
              ++ elems.map (fun e => Ev.call (.insert e))
          ∧ elems.length = filterElementsOf w.ULONG_MAX argc argv
          ∧ (∀ e ∈ elems, ∃ c, e = w.random c 32)
          ∧ ((∀ c n, (w.random c n).length = n) → ∀ e ∈ elems, e.length = 32)) := by
  refine ⟨?_, filterElementsOf_lt _ _ _, ?_⟩
  · intro fe n s hfe hn
    obtain ⟨X, b1, _, b3, b4, _⟩ := insertLoop_spec w fe hfe n 0 s
    refine ⟨b4 (by omega), fun hnorm => ?_⟩
    obtain ⟨elems, e1, e2, e3⟩ := b3 hnorm
    refine ⟨elems, by simpa using e2, e3, ?_⟩
    rw [b1, List.filter_append, filter_mainEvents _ isFilterBuild_not_handler X, e1,
      filterBuild_loopEvents]
  · intro he
    by_cases hargc : argc < 3
    · rw [main_usage w fuel argc argv hargc] at he; simp at he
    have hm : Ev.call .setBloomFilter ∈ mainEvents (main w fuel argc argv).1.trace :=
      (mem_mainEvents _ _).mpr ⟨he, rfl⟩
    rw [filter_mainEvents _ isFilterBuild_not_handler]
    have hS : (setupEvents w argc argv).filter Ev.isFilterBuild
        = [Ev.cout [.endl, .str "Bloom filter settings", .endl,
                  .str "---------------------", .endl,
                  .str "  elements:            ",
                  .num (filterElementsOf w.ULONG_MAX argc argv), .endl,
                  .str "  false positive rate: 0.001", .endl,
                  .str "  nTweak:              0", .endl,
                  .str "  nFlags:              0", .endl],
           Ev.call (.BloomFilter (filterElementsOf w.ULONG_MAX argc argv) (1, 1000) 0 0)] := by
      simp [setupEvents, setupStmts, Stmt.ev, Ev.isFilterBuild, List.filter]
    have hT : (startEvents w argc argv).filter Ev.isFilterBuild = [] := rfl
    have hU : stopEvents.filter Ev.isFilterBuild = [] := rfl
    have hC : ∀ what, (catchEvents what).filter Ev.isFilterBuild = [] := by
      intro what; simp [catchEvents, catchStmts, Stmt.ev, Ev.isFilterBuild, List.filter]
    have hnS : Ev.call .setBloomFilter ∉ setupEvents w argc argv := by
      simp [setupEvents, setupStmts, Stmt.ev]
    have hnC : ∀ what, Ev.call .setBloomFilter ∉ catchEvents what := by
      intro what; simp [catchEvents, catchStmts, Stmt.ev]
    have hgood : ∀ elems, GoodElems w argc argv elems →
        elems.length = filterElementsOf w.ULONG_MAX argc argv
        ∧ (∀ e ∈ elems, ∃ c, e = w.random c 32)
        ∧ ((∀ c n, (w.random c n).length = n) → ∀ e ∈ elems, e.length = 32) := by
      intro elems hg
      refine ⟨hg.1, hg.2, fun hlen e he => ?_⟩
      obtain ⟨c, hc⟩ := hg.2 e he
      rw [hc, hlen]
    obtain ⟨_, hshape⟩ := main_shape w fuel argc argv hargc
    rcases hshape with ⟨k, what, _, h1, _⟩ | ⟨L, tail, hL, h1, h2⟩
      | ⟨elems, k, what, hg, _, h1, _⟩ | ⟨elems, n, hg, h1, _⟩
      | ⟨elems, n, X, Y, hg, h1, h2, _, h4⟩
    · exfalso
      rw [h1] at hm
      rcases List.mem_append.mp hm with h | h
      · exact hnS (List.mem_of_mem_take h)
      · exact hnC what h
    · exfalso
      rw [h1] at hm
      rcases List.mem_append.mp hm with h | h
      · rcases List.mem_append.mp h with h | h
        · exact hnS h
        · have := hL _ h; cases this
      · rcases h2 with ⟨what, ht, _⟩ | ⟨ht, _⟩
        · rw [ht] at h; exact hnC what h
        · rw [ht] at h; cases h
    · refine ⟨elems, ?_, hgood elems hg⟩
      rw [h1]
      simp only [List.filter_append, hS, hC, filterBuild_loopEvents,
        filter_eq_nil_of_take _ _ k hT, List.append_nil]
    · refine ⟨elems, ?_, hgood elems hg⟩
      rw [h1]
      simp only [List.filter_append, hS, hT, filterBuild_loopEvents,
        filter_replicate_usleep Ev.isFilterBuild n rfl, List.append_nil]
    · refine ⟨elems, ?_, hgood elems hg⟩
      rw [h1, mainEvents_append, h2]
      have hY : (mainEvents Y).filter Ev.isFilterBuild = [] := by
        rcases h4 with ⟨h5, _⟩ | ⟨what, h5, _⟩
        · rw [h5, hU]
        · rw [h5, List.filter_append, filter_eq_nil_of_take _ _ _ hU, hC]; rfl
      simp only [List.filter_append, hS, hT, filterBuild_loopEvents,
        filter_replicate_usleep Ev.isFilterBuild n rfl, List.append_nil, hY]

/-- Witness for C8: the loop for two elements, and a run with two elements. -/
theorem bloom_filter_setup_witness :
    ((2 < 2 ^ 32 ∧ 2 < 5 ∧ (insertLoop demoWorld 2 5 0 Proc.initial).2 = .normal)
      ∧ (insertLoop demoWorld 2 5 0 Proc.initial).2 ≠ .running
      ∧ ∃ elems : List Bytes, elems.length = 2
          ∧ (∀ e ∈ elems, ∃ c, e = demoWorld.random c 32)
          ∧ (insertLoop demoWorld 2 5 0 Proc.initial).1.trace.filter Ev.isFilterBuild
              = Proc.initial.trace.filter Ev.isFilterBuild
                ++ elems.map fun e => Ev.call (.insert e))
    ∧ (Ev.call .setBloomFilter
        ∈ (main demoWorld 60 5 ["netsync", "bitcoin", "localhost", "18333", "2"]).1.trace
      ∧ (∀ c n, (demoWorld.random c n).length = n)
      ∧ ∃ elems : List Bytes, elems.length = 2 ∧ ∀ e ∈ elems, e.length = 32) :=
  ⟨⟨⟨by decide, by decide, by decide⟩,
    ((bloom_filter_setup demoWorld 0 0 []).1 2 5 Proc.initial (by decide) (by decide)).1,
    ((bloom_filter_setup demoWorld 0 0 []).1 2 5 Proc.initial (by decide) (by decide)).2
      (by decide)⟩,
   ⟨by decide, fun c n => by simp [demoWorld],
    (((bloom_filter_setup demoWorld 60 5
        ["netsync", "bitcoin", "localhost", "18333", "2"]).2.2 (by decide)).imp
      fun _ h => ⟨h.2.1, h.2.2.2 fun c n => by simp [demoWorld]⟩)⟩⟩

/-- C10: shutdown. `g_bShutdown` starts as false and `finish` sets it to true; in
the final state of every run, whatever the fuel, the flag is true exactly
when the handler has run, so nothing else writes it and nothing resets it.
`stop` is called at most once, and before that call `start` has been called
and the handler has run, so the flag was true when the wait loop ended. When
`stop` has been called and no exception was caught (the catch block printed
nothing), `main` returns 0. -/
theorem shutdown_and_stop (w : World) (fuel : Nat) (argc : Int) (argv : List String) :
    Proc.initial.g_bShutdown = false
    ∧ (∀ sig s, (finish sig s).g_bShutdown = true)
    ∧ ((main w fuel argc argv).1.g_bShutdown = true
        ↔ ∃ e ∈ (main w fuel argc argv).1.trace, e.isHandler = true)
    ∧ (∀ pre post, (main w fuel argc argv).1.trace = pre ++ Ev.call .stop :: post →
        Ev.call .stop ∉ pre ∧ Ev.call .stop ∉ post
        ∧ (∃ host port, Ev.call (.start host port) ∈ pre)
        ∧ (∃ e ∈ pre, e.isHandler = true))
    ∧ (Ev.call .stop ∈ (main w fuel argc argv).1.trace →
        (∀ what, Ev.cerr [.str "Unexpected termination. Error: ", .str what, .endl]
          ∉ (main w fuel argc argv).1.trace) →
        (main w fuel argc argv).2 = some 0) := by
  refine ⟨rfl, fun _ _ => rfl, ?_, ?_, ?_⟩
  · by_cases hargc : argc < 3
    · rw [main_usage w fuel argc argv hargc]; simp [Ev.isHandler]
    · exact (main_shape w fuel argc argv hargc).1
  · intro pre post htr
    by_cases hargc : argc < 3
    · rw [main_usage w fuel argc argv hargc] at htr
      have : Ev.call .stop ∈ [Ev.cerr (usageText w argv)] := by
        simp only at htr; rw [htr]; simp
      simp at this
    have hmem : Ev.call .stop ∈ mainEvents (main w fuel argc argv).1.trace :=
      (mem_mainEvents _ _).mpr ⟨by rw [htr]; simp, rfl⟩
    have hnS : Ev.call .stop ∉ setupEvents w argc argv := by
      simp [setupEvents, setupStmts, Stmt.ev]
    have hnT : Ev.call .stop ∉ startEvents w argc argv := by
      simp [startEvents, startStmts, Stmt.ev]
    have hnC : ∀ what, Ev.call .stop ∉ catchEvents what := by
      intro what; simp [catchEvents, catchStmts, Stmt.ev]
    obtain ⟨_, hshape⟩ := main_shape w fuel argc argv hargc
    rcases hshape with ⟨k, what, _, h1, _⟩ | ⟨L, tail, hL, h1, h2⟩
      | ⟨elems, k, what, _, _, h1, _⟩ | ⟨elems, n, _, h1, _⟩
      | ⟨elems, n, X, Y, _, h1, h2, h3, h4⟩
    · exfalso
      rw [h1] at hmem
      rcases List.mem_append.mp hmem with h | h
      · exact hnS (List.mem_of_mem_take h)
      · exact hnC what h
    · exfalso
      rw [h1] at hmem
      rcases List.mem_append.mp hmem with h | h
      · rcases List.mem_append.mp h with h | h
        · exact hnS h
        · have := hL _ h; cases this
      · rcases h2 with ⟨what, ht, _⟩ | ⟨ht, _⟩
        · rw [ht] at h; exact hnC what h
        · rw [ht] at h; cases h
    · exfalso
      rw [h1] at hmem
      simp only [List.mem_append] at hmem
      rcases hmem with ((h | h) | h) | h
      · exact hnS h
      · have := mem_loopEvents elems _ h; cases this
      · exact hnT (List.mem_of_mem_take h)
      · exact hnC what h
    · exfalso
      rw [h1] at hmem
      exact stop_not_mem_body w argc argv elems n hmem
    · have hXstop : Ev.call .stop ∉ X := by
        intro h
        have : Ev.call .stop ∈ mainEvents X := (mem_mainEvents _ _).mpr ⟨h, rfl⟩
        rw [h2] at this
        exact stop_not_mem_body w argc argv elems n this
      have hcount : (main w fuel argc argv).1.trace.count (Ev.call .stop) = 1 := by
        rw [count_mainEvents _ (Ev.call .stop) rfl, h1, mainEvents_append, h2, List.count_append,
          List.count_eq_zero.mpr (stop_not_mem_body w argc argv elems n)]
        rcases h4 with ⟨h5, _⟩ | ⟨what, h5, _⟩
        · rw [h5]; decide
        · rw [h5, List.count_append, List.count_eq_zero.mpr (hnC what)]; decide
      rw [htr] at hcount
      obtain ⟨hpre, hpost⟩ := count_append_cons_one pre post _ hcount
      obtain ⟨r, hr⟩ := prefix_of_first X Y pre post _ hXstop (by rw [← h1, htr])
      refine ⟨hpre, hpost, ?_, ?_⟩
      · refine ⟨hostOf argv, portOf (w.coinParams (argv.getD 1 "")) argc argv, ?_⟩
        rw [hr]
        have := start_mem_body w argc argv elems n
        rw [← h2] at this
        exact List.mem_append_left _ ((mem_mainEvents _ _).mp this).1
      · obtain ⟨e, he, hh⟩ := h3
        exact ⟨e, by rw [hr]; exact List.mem_append_left _ he, hh⟩
  · intro hstop hno
    by_cases hargc : argc < 3
    · rw [main_usage w fuel argc argv hargc] at hstop; simp at hstop
    have hcatch : ∀ what, (main w fuel argc argv).2 = some (-2) →
        Ev.cerr [.str "Unexpected termination. Error: ", .str what, .endl]
          ∈ mainEvents (main w fuel argc argv).1.trace → False :=
      fun what _ h => hno what ((mem_mainEvents _ _).mp h).1
    have hmem : Ev.call .stop ∈ mainEvents (main w fuel argc argv).1.trace :=
      (mem_mainEvents _ _).mpr ⟨hstop, rfl⟩
    have hinC : ∀ what, Ev.cerr [.str "Unexpected termination. Error: ", .str what, .endl]
        ∈ catchEvents what := by
      intro what; simp [catchEvents, catchStmts, Stmt.ev]
    obtain ⟨_, hshape⟩ := main_shape w fuel argc argv hargc
    rcases hshape with ⟨k, what, _, h1, hc⟩ | ⟨L, tail, hL, h1, h2⟩
      | ⟨elems, k, what, _, _, h1, hc⟩ | ⟨elems, n, _, h1, _⟩
      | ⟨elems, n, X, Y, _, h1, h2, h3, h4⟩
    · exact absurd (by rw [h1]; exact List.mem_append_right _ (hinC what)) (hcatch what hc)
    · rcases h2 with ⟨what, ht, hc⟩ | ⟨ht, _⟩
      · exact absurd (by rw [h1, ht]; exact List.mem_append_right _ (hinC what))
          (hcatch what hc)
      · exfalso
        rw [h1, ht] at hmem
        simp only [List.append_nil, List.mem_append] at hmem
        rcases hmem with h | h
        · simp [setupEvents, setupStmts, Stmt.ev] at h
        · have := hL _ h; cases this
    · exact absurd (by rw [h1]; exact List.mem_append_right _ (hinC what)) (hcatch what hc)
    · exfalso
      rw [h1] at hmem
      exact stop_not_mem_body w argc argv elems n hmem
    · rcases h4 with ⟨_, hc⟩ | ⟨what, h5, hc⟩
      · exact hc
      · exact absurd (by
          rw [h1, mainEvents_append, h5]
          exact List.mem_append_right _ (List.mem_append_right _ (hinC what)))
          (hcatch what hc)

/-- Witness for C10: a run in which SIGINT arrives during the wait loop. -/
theorem shutdown_and_stop_witness :
    ((main demoWorld 60 5 demoArgs).1.trace
        = (main demoWorld 60 5 demoArgs).1.trace.take 44 ++ Ev.call .stop
            :: (main demoWorld 60 5 demoArgs).1.trace.drop 45
      ∧ (∃ host port, Ev.call (.start host port)
          ∈ (main demoWorld 60 5 demoArgs).1.trace.take 44)
      ∧ (∃ e ∈ (main demoWorld 60 5 demoArgs).1.trace.take 44, e.isHandler = true))
    ∧ (Ev.call .stop ∈ (main demoWorld 60 5 demoArgs).1.trace
      ∧ (∀ what, Ev.cerr [.str "Unexpected termination. Error: ", .str what, .endl]
          ∉ (main demoWorld 60 5 demoArgs).1.trace)
      ∧ (main demoWorld 60 5 demoArgs).2 = some 0) :=
  have hno : ∀ what, Ev.cerr [.str "Unexpected termination. Error: ", .str what, .endl]
      ∉ (main demoWorld 60 5 demoArgs).1.trace := fun what h =>
    absurd ((by decide : ∀ e ∈ (main demoWorld 60 5 demoArgs).1.trace, e.isCerr = false) _ h)
      (by simp [Ev.isCerr])
  ⟨⟨by decide,
    ((shutdown_and_stop demoWorld 60 5 demoArgs).2.2.2.1
      ((main demoWorld 60 5 demoArgs).1.trace.take 44)
      ((main demoWorld 60 5 demoArgs).1.trace.drop 45) (by decide)).2.2.1,
    ((shutdown_and_stop demoWorld 60 5 demoArgs).2.2.2.1
      ((main demoWorld 60 5 demoArgs).1.trace.take 44)
      ((main demoWorld 60 5 demoArgs).1.trace.drop 45) (by decide)).2.2.2⟩,
   ⟨by decide, hno, (shutdown_and_stop demoWorld 60 5 demoArgs).2.2.2.2 (by decide) hno⟩⟩

end Netsync
